import Mathlib

/-!
Shallow embedding of the rule-based backtesters (`BacktesterV1.py`,
`BacktesterV2.py`) and of the news aggregator (`news_gathererV1.py`).

A price series is the list of cleaned close prices (the `Close` column after
the initial `dropna`), indexed by position; dates are positions.  A pandas
column that can hold NaN is modelled as `ℕ → Option ℚ` (`none` = NaN), a
column that is always populated as `ℕ → ℚ`.  All functions below are direct
transcriptions of the corresponding pandas expressions in the source.
-/

namespace Backtest

/-- `Close.rolling(window := w).mean()` at row `i`: the arithmetic mean of the
`w` trailing closes (current row included); NaN (`none`) while fewer than `w`
rows exist.  Used with `w = 10` and `w = 50` in both backtesters. -/
def smaAt (w : ℕ) (c : List ℚ) (i : ℕ) : Option ℚ :=
  if w ≤ i + 1 ∧ i < c.length then
    some (((c.drop (i + 1 - w)).take w).sum / (w : ℚ))
  else none

/-- `Close.pct_change()` at row `i`: `close[i]/close[i-1] - 1`, NaN at row 0. -/
def pctChangeAt (c : List ℚ) (i : ℕ) : Option ℚ :=
  if 1 ≤ i ∧ i < c.length then some (c.getD i 0 / c.getD (i - 1) 0 - 1) else none

/-- `Close.diff()` at row `i`: `close[i] - close[i-1]`, NaN at row 0. -/
def diffAt (c : List ℚ) (i : ℕ) : Option ℚ :=
  if 1 ≤ i ∧ i < c.length then some (c.getD i 0 - c.getD (i - 1) 0) else none

/-- `np.where(Change > 0, Change, 0)` of BacktesterV2; a NaN change compares
false, so row 0 gets the value 0. -/
def gainAt (c : List ℚ) (i : ℕ) : ℚ :=
  match diffAt c i with
  | some d => if 0 < d then d else 0
  | none => 0

/-- `np.where(Change < 0, abs(Change), 0)` of BacktesterV2. -/
def lossAt (c : List ℚ) (i : ℕ) : ℚ :=
  match diffAt c i with
  | some d => if d < 0 then -d else 0
  | none => 0

/-- Numerator of the adjusted exponentially weighted mean used by pandas
`ewm`: `Σ βᵏ · x (i-k)` over `k ≤ i`, computed by the recurrence
`num (i+1) = x (i+1) + β · num i`. -/
def ewmNum (x : ℕ → ℚ) (β : ℚ) : ℕ → ℚ
  | 0 => x 0
  | i + 1 => x (i + 1) + β * ewmNum x β i

/-- Denominator of the adjusted exponentially weighted mean: `Σ βᵏ` over
`k ≤ i`. -/
def ewmDen (β : ℚ) : ℕ → ℚ
  | 0 => 1
  | i + 1 => 1 + β * ewmDen β i

/-- `Gain.ewm(com 13, min_periods 14).mean()` of BacktesterV2: the adjusted
exponentially weighted mean with `β = 1 - α = 13/14`, NaN until 14
observations (rows 0‥13) exist.  The `Gain` column itself has no NaNs. -/
def avgGainAt (c : List ℚ) (i : ℕ) : Option ℚ :=
  if 13 ≤ i ∧ i < c.length then
    some (ewmNum (gainAt c) (13 / 14) i / ewmDen (13 / 14) i)
  else none

/-- `Loss.ewm(com 13, min_periods 14).mean()` of BacktesterV2. -/
def avgLossAt (c : List ℚ) (i : ℕ) : Option ℚ :=
  if 13 ≤ i ∧ i < c.length then
    some (ewmNum (lossAt c) (13 / 14) i / ewmDen (13 / 14) i)
  else none

/-- `RSI = 100 - 100/(1 + Avg_Gain/Avg_Loss)` of BacktesterV2, with IEEE
float semantics made explicit: when `Avg_Loss = 0` and `Avg_Gain > 0` the
quotient is `+inf` and the RSI collapses to the value 100; when both
averages are 0 the quotient is `0/0 = NaN` and the RSI is NaN (`none`). -/
def rsiAt (c : List ℚ) (i : ℕ) : Option ℚ :=
  match avgGainAt c i, avgLossAt c i with
  | some g, some l =>
    if l = 0 then (if g = 0 then none else some 100)
    else some (100 - 100 / (1 + g / l))
  | _, _ => none

/-- Condition of `np.where((SMA_10 > SMA_50) & (RSI < 70), 1.0, 0.0)` in
BacktesterV2; a comparison against NaN is false. -/
def signalCondV2 (c : List ℚ) (i : ℕ) : Bool :=
  (match smaAt 10 c i, smaAt 50 c i with
   | some a, some b => decide (b < a)
   | _, _ => false) &&
  (match rsiAt c i with
   | some r => decide (r < 70)
   | none => false)

/-- The `Signal` column of BacktesterV2 (total: warm-up rows get 0.0). -/
def SignalV2 (c : List ℚ) (i : ℕ) : ℚ :=
  if signalCondV2 c i then 1 else 0

/-- The `Market_returns` column of BacktesterV2. -/
def marketAt (c : List ℚ) (i : ℕ) : Option ℚ :=
  pctChangeAt c i

/-- `Strategy_returns = Market_returns * Signal.shift(1)` of BacktesterV2.
Row 0 is NaN (both factors are NaN there, and `marketAt c 0 = none` already
accounts for it, making the `i - 1` truncation at 0 irrelevant). -/
def strategyV2 (c : List ℚ) (i : ℕ) : Option ℚ :=
  (marketAt c i).map fun m => m * SignalV2 c (i - 1)

/-- `Cumulative_strategy = (1 + Strategy_returns.fillna(0)).cumprod()` of
BacktesterV2; `fillna` makes the column total. -/
def cumStrategyV2 (c : List ℚ) : ℕ → ℚ
  | 0 => 1 + (strategyV2 c 0).getD 0
  | i + 1 => cumStrategyV2 c i * (1 + (strategyV2 c (i + 1)).getD 0)

/-- `Cumulative_market = (1 + Market_returns.fillna(0)).cumprod()` of
BacktesterV2. -/
def cumMarketV2 (c : List ℚ) : ℕ → ℚ
  | 0 => 1 + (marketAt c 0).getD 0
  | i + 1 => cumMarketV2 c i * (1 + (marketAt c (i + 1)).getD 0)

/-- `Peak = Cumulative_strategy.cummax()` of BacktesterV2. -/
def runMaxV2 (c : List ℚ) : ℕ → ℚ
  | 0 => cumStrategyV2 c 0
  | i + 1 => max (runMaxV2 c i) (cumStrategyV2 c (i + 1))

/-- `Drawdown = Cumulative_strategy / Peak - 1` of BacktesterV2. -/
def drawdownV2 (c : List ℚ) (i : ℕ) : ℚ :=
  cumStrategyV2 c i / runMaxV2 c i - 1

/-- Minimum of a list of rationals, `none` on the empty list (the value of
pandas `Series.min()` on an all-NaN or empty series). -/
def minList : List ℚ → Option ℚ
  | [] => none
  | x :: xs =>
    match minList xs with
    | some m => some (min x m)
    | none => some x

/-- All drawdown values of BacktesterV2 in row order. -/
def ddListV2 (c : List ℚ) : List ℚ :=
  (List.range c.length).map (drawdownV2 c)

/-- `max_dd = Drawdown.min()` of BacktesterV2. -/
def maxDDV2 (c : List ℚ) : Option ℚ :=
  minList (ddListV2 c)

/-- The non-NaN entries of `Strategy_returns` in row order (the values that
pandas `mean()` and `std()` aggregate, both of which skip NaN). -/
def stratValsV2 (c : List ℚ) : List ℚ :=
  (List.range c.length).filterMap (strategyV2 c)

/-- pandas `Series.mean()` over the non-NaN values: NaN for an empty list. -/
def meanOf (l : List ℚ) : Option ℚ :=
  if l = [] then none else some (l.sum / (l.length : ℚ))

/-- pandas `Series.std()` has `ddof = 1`; this is its square, the sample
variance `Σ (x - mean)² / (n - 1)`, NaN (`none`) for fewer than two values.
`std = 0` iff the variance is 0 and `std > 0` iff it is positive, so the
guard of BacktesterV2 can be read off this value. -/
def varOf (l : List ℚ) : Option ℚ :=
  if l.length < 2 then none
  else some ((l.map fun x => (x - l.sum / (l.length : ℚ)) ^ 2).sum / ((l.length : ℚ) - 1))

/-- The Sharpe ratio of BacktesterV2:
`if std > 0 then (mean/std) * sqrt 252 else 0`.  Since `mean/std · √252` is
irrational, the defined value is encoded as a pair `(m, v)` denoting the real
number `(m / √v) · √252`; the `else` branch (taken both when the variance is
0 and when it is NaN) yields the literal 0, encoded `(0, 1)`.  The result is
always `some`: this branch structure is exactly the guarded source code. -/
def sharpeV2 (c : List ℚ) : Option (ℚ × ℚ) :=
  match varOf (stratValsV2 c) with
  | some v =>
    if 0 < v then
      some ((stratValsV2 c).sum / ((stratValsV2 c).length : ℚ), v)
    else some (0, 1)
  | none => some (0, 1)

/-- The frame of BacktesterV1 after its second `dropna`: rows 0‥48 carry a
NaN `SMA_50` (rows 0‥8 also a NaN `SMA_10`) and are removed, so the surviving
rows are the original rows from index 49 on. -/
def trimmedV1 (c : List ℚ) : List ℚ :=
  c.drop 49

/-- `Position = np.where(SMA_10 > SMA_50, 1.0, 0.0)` of BacktesterV1,
indexed by the position `j` in the trimmed frame (original row `j + 49`,
where both SMAs are defined). -/
def PositionV1 (c : List ℚ) (j : ℕ) : ℚ :=
  match smaAt 10 c (j + 49), smaAt 50 c (j + 49) with
  | some a, some b => if b < a then 1 else 0
  | _, _ => 0

/-- `daily_returns = Close.pct_change()` of BacktesterV1, computed on the
trimmed frame. -/
def dailyV1 (c : List ℚ) (j : ℕ) : Option ℚ :=
  pctChangeAt (trimmedV1 c) j

/-- `strategy_returns = daily_returns * Position.shift(1)` of BacktesterV1;
NaN exactly at the first trimmed row (where `daily_returns` is NaN). -/
def strategyV1 (c : List ℚ) (j : ℕ) : Option ℚ :=
  (dailyV1 c j).map fun m => m * PositionV1 c (j - 1)

/-- Running product of the defined entries of `f` among rows `0‥i` (NaN
entries contribute factor 1, i.e. are skipped). -/
def prodDefUpTo (f : ℕ → Option ℚ) : ℕ → ℚ
  | 0 => ((f 0).getD 1)
  | i + 1 => prodDefUpTo f i * ((f (i + 1)).getD 1)

/-- pandas `Series.cumprod()` with its default `skipna`: a NaN row stays
NaN in the output but does not poison later rows. -/
def cumprodSkip (f : ℕ → Option ℚ) (i : ℕ) : Option ℚ :=
  (f i).map fun _ => prodDefUpTo f i

/-- `cumulative_returns = (strategy_returns + 1).cumprod()` of BacktesterV1.
No `fillna` is applied, so the first trimmed row stays NaN. -/
def cumulativeV1 (c : List ℚ) (j : ℕ) : Option ℚ :=
  cumprodSkip (fun k => (strategyV1 c k).map (· + 1)) j

/-- `buy_hold_returns = (daily_returns + 1).cumprod()` of BacktesterV1. -/
def buyHoldV1 (c : List ℚ) (j : ℕ) : Option ℚ :=
  cumprodSkip (fun k => (dailyV1 c k).map (· + 1)) j

/-- Maximum of the defined entries of `f` among rows `0‥i`, `none` when all
of them are NaN. -/
def maxDefUpTo (f : ℕ → Option ℚ) : ℕ → Option ℚ
  | 0 => f 0
  | i + 1 =>
    match maxDefUpTo f i, f (i + 1) with
    | some m, some x => some (max m x)
    | some m, none => some m
    | none, o => o

/-- pandas `Series.cummax()` with its default `skipna`. -/
def cummaxSkip (f : ℕ → Option ℚ) (i : ℕ) : Option ℚ :=
  (f i).bind fun _ => maxDefUpTo f i

/-- `Running_max = cumulative_returns.cummax()` of BacktesterV1. -/
def runMaxV1 (c : List ℚ) (j : ℕ) : Option ℚ :=
  cummaxSkip (cumulativeV1 c) j

/-- `Drawdown = cumulative_returns / Running_max - 1` of BacktesterV1 (NaN
where either operand is NaN). -/
def drawdownV1 (c : List ℚ) (j : ℕ) : Option ℚ :=
  match cumulativeV1 c j, runMaxV1 c j with
  | some x, some m => some (x / m - 1)
  | _, _ => none

/-- `max_dd = Drawdown.min()` of BacktesterV1 (skipping NaN rows). -/
def maxDDV1 (c : List ℚ) : Option ℚ :=
  minList ((List.range (trimmedV1 c).length).filterMap (drawdownV1 c))

/-- The non-NaN entries of `strategy_returns` of BacktesterV1. -/
def stratValsV1 (c : List ℚ) : List ℚ :=
  (List.range (trimmedV1 c).length).filterMap (strategyV1 c)

/-- `annual_sharpe = (mean/std) * sqrt 252` of BacktesterV1, with no guard:
encoded like `sharpeV2`, as `some (m, v)` denoting `(m / √v) · √252` when the
result is a finite number.  When the standard deviation is 0 the division
yields NaN (mean 0) or ±inf (mean ≠ 0), and when mean or std are themselves
NaN so is the quotient; all those non-finite outcomes are `none`. -/
def sharpeV1 (c : List ℚ) : Option (ℚ × ℚ) :=
  match meanOf (stratValsV1 c), varOf (stratValsV1 c) with
  | some m, some v => if v = 0 then none else some (m, v)
  | _, _ => none

/-- Sample series: 50 flat closes, one up-move, one final flat close. -/
def sampleA : List ℚ :=
  List.replicate 50 100 ++ [110, 110]

/-- Sample series: identical to `sampleA` up to the last bar, which is
perturbed. -/
def sampleB : List ℚ :=
  List.replicate 50 100 ++ [110, 120]

/-- Sample series: 52 constant closes (a zero-variance instrument long
enough to survive the V1 dropna). -/
def sampleC : List ℚ :=
  List.replicate 52 100

/-- Sample series: 20 constant closes (long enough for the RSI warm-up). -/
def sampleD : List ℚ :=
  List.replicate 20 100

/-- Sample series: 50 constant closes (the shortest series whose V1 frame
is nonempty after the dropna). -/
def sampleE : List ℚ :=
  List.replicate 50 100

end Backtest

namespace NewsAgg

/-- A raw timestamp value found in a story dictionary: the Yahoo API may
deliver a Unix integer or an ISO string. -/
inductive RawVal
  | int (n : ℤ)
  | str (s : String)
deriving DecidableEq

/-- Python truthiness of an optional raw value (`None`, `0` and `""` are
falsy), as used by the `or` chain in `get_news`. -/
def truthy : Option RawVal → Bool
  | none => false
  | some (.int n) => n != 0
  | some (.str s) => s != ""

/-- One story dictionary as `get_news` reads it: the three possible
timestamp locations and the two possible headline locations, each possibly
absent. -/
structure Story where
  providerPublishTime : Option RawVal
  pubDate : Option RawVal
  contentPubDate : Option RawVal
  title : Option String
  contentTitle : Option String
deriving DecidableEq

/-- `story.get("providerPublishTime") or story.get("pubDate") or
story.get("content", dict()).get("pubDate")`: Python `or` returns the first
truthy operand, else the last operand. -/
def rawTimeOf (st : Story) : Option RawVal :=
  if truthy st.providerPublishTime then st.providerPublishTime
  else if truthy st.pubDate then st.pubDate
  else st.contentPubDate

/-- `story.get("title") or story.get("content", dict()).get("title", "No
Title")`. -/
def headlineOf (st : Story) : String :=
  match st.title with
  | some t => if t != "" then t else st.contentTitle.getD "No Title"
  | none => st.contentTitle.getD "No Title"

/-- A parsed calendar timestamp, as produced by `datetime.fromtimestamp` or
`datetime.fromisoformat`; only its formatting matters to this module. -/
structure DT where
  y : ℕ
  mo : ℕ
  d : ℕ
  h : ℕ
  mi : ℕ
  s : ℕ
deriving DecidableEq

/-- The decimal digit character of `n % 10`. -/
def dchD : ℕ → Char
  | 0 => '0'
  | 1 => '1'
  | 2 => '2'
  | 3 => '3'
  | 4 => '4'
  | 5 => '5'
  | 6 => '6'
  | 7 => '7'
  | 8 => '8'
  | _ => '9'

/-- Last decimal digit of `n`, as a character. -/
def dch (n : ℕ) : Char :=
  dchD (n % 10)

/-- Two-digit zero-padded decimal rendering (`%02d` for `n < 100`). -/
def pad2 (n : ℕ) : List Char :=
  [dch (n / 10), dch n]

/-- Four-digit zero-padded decimal rendering (`%Y` for `1000 ≤ n < 10000`). -/
def pad4 (n : ℕ) : List Char :=
  pad2 (n / 100) ++ pad2 (n % 100)

/-- `dt_object.strftime` with the source's format string
`%Y-%m-%d %H:%M:%S`. -/
def fmtDT (t : DT) : String :=
  ⟨pad4 t.y ++ '-' :: (pad2 t.mo ++ '-' :: (pad2 t.d ++ ' ' :: (pad2 t.h ++ ':' :: (pad2 t.mi ++ ':' :: pad2 t.s))))⟩

/-- Timestamps that the fixed-width format renders faithfully: a 4-digit
year and 2-digit remaining fields (true of every real datetime). -/
def DTvalid (t : DT) : Prop :=
  1000 ≤ t.y ∧ t.y < 10000 ∧ t.mo < 100 ∧ t.d < 100 ∧ t.h < 100 ∧ t.mi < 100 ∧ t.s < 100

/-- The six fields in significance order; chronological comparison of two
timestamps is lexicographic comparison of these lists. -/
def dtFields (t : DT) : List ℕ :=
  [t.y, t.mo, t.d, t.h, t.mi, t.s]

/-- Python `str` of a raw value, used by the fallback branch. -/
def strOfRaw : RawVal → String
  | .int n => toString n
  | .str s => s

/-- The `except` fallback of the timestamp parsing:
`str(raw_time) if raw_time else "Unknown Time"`. -/
def fallbackTime (raw : Option RawVal) : String :=
  match raw with
  | some v => if truthy (some v) then strOfRaw v else "Unknown Time"
  | none => "Unknown Time"

/-- The `time_str` computation of `get_news`.  The library parsers
`datetime.fromtimestamp` and `datetime.fromisoformat` (the latter applied
after the `Z` replacement) are external collaborators, abstracted as
functions returning `none` when they raise; a non-int non-str raw value
leaves the initial `"Unknown Time"` in place. -/
def timeStrOf (pInt : ℤ → Option DT) (pIso : String → Option DT)
    (raw : Option RawVal) : String :=
  match raw with
  | some (.int n) =>
    match pInt n with
    | some dt => fmtDT dt
    | none => fallbackTime (some (.int n))
  | some (.str s) =>
    match pIso s with
    | some dt => fmtDT dt
    | none => fallbackTime (some (.str s))
  | none => "Unknown Time"

/-- The normalized record `get_news` appends for one story. -/
structure NewsItem where
  company : String
  ticker : String
  headline : String
  time : String
deriving DecidableEq

/-- The body of the `for story in newslist` loop. -/
def cleanStory (name ticker : String) (pInt : ℤ → Option DT)
    (pIso : String → Option DT) (st : Story) : NewsItem :=
  { company := name
    ticker := ticker
    headline := headlineOf st
    time := timeStrOf pInt pIso (rawTimeOf st) }

/-- `get_news`: an empty news list returns `[]` (the guard), otherwise every
story is cleaned in order. -/
def getNews (name ticker : String) (pInt : ℤ → Option DT)
    (pIso : String → Option DT) (stories : List Story) : List NewsItem :=
  if stories = [] then [] else stories.map (cleanStory name ticker pInt pIso)

/-- The main watchlist loop: `fetch` models `yf.Ticker(t).news` and may
raise (`Except.error`).  On success the cleaned stories are appended to the
master list; on failure the item is skipped and the error is only printed
(second component: the console error log of `print` calls). -/
def runBatch (fetch : String → Except String (List Story))
    (pInt : ℤ → Option DT) (pIso : String → Option DT) :
    List (String × String) → List NewsItem × List (String × String)
  | [] => ([], [])
  | (n, t) :: rest =>
    match fetch t with
    | .ok stories =>
      let r := runBatch fetch pInt pIso rest
      (getNews n t pInt pIso stories ++ r.1, r.2)
    | .error e =>
      let r := runBatch fetch pInt pIso rest
      (r.1, (t, e) :: r.2)

/-- Stable insertion into a list kept in descending `time` order: `x` goes
after every element whose time is ≥ its own, exactly where Python's stable
descending sort would keep it. -/
def insertDesc (x : NewsItem) : List NewsItem → List NewsItem
  | [] => [x]
  | y :: ys => if y.time < x.time then x :: y :: ys else y :: insertDesc x ys

/-- `all_market_news.sort(key time, reverse True)`: a stable sort into
descending lexicographic order of the `time` strings. -/
def sortNews : List NewsItem → List NewsItem
  | [] => []
  | x :: xs => insertDesc x (sortNews xs)

/-- A sample story carrying only a headline (timestamps absent). -/
def exStory : Story :=
  { providerPublishTime := none
    pubDate := none
    contentPubDate := none
    title := some "Quarterly results"
    contentTitle := none }

/-- A fetcher whose upstream source fails for TSLA and returns one story for
every other ticker. -/
def exFetch : String → Except String (List Story) :=
  fun t => if t = "TSLA" then Except.error "UpstreamDataError" else Except.ok [exStory]

/-- A timestamp parser that always fails (never called on the sample data:
its stories carry no timestamp at all). -/
def noParseInt : ℤ → Option DT := fun _ => none

/-- An ISO parser that always fails. -/
def noParseIso : String → Option DT := fun _ => none

/-- A two-instrument watchlist for the batch-resilience scenario. -/
def exWatchlist : List (String × String) :=
  [("Google", "GOOGL"), ("Tesla", "TSLA")]

end NewsAgg

/-!
Helper lemmas: evaluation of the pipeline on constant (replicate) series,
and elementary facts used across several claims.
-/

namespace Backtest

theorem getD_replicate (a : ℚ) (n m : ℕ) :
    (List.replicate n a).getD m 0 = if m < n then a else 0 := by
  rw [List.getD_eq_getElem?_getD, List.getElem?_replicate]
  split <;> rfl

theorem smaAt_replicate (w n : ℕ) (a : ℚ) (i : ℕ) (hw : w ≠ 0) :
    smaAt w (List.replicate n a) i = if w ≤ i + 1 ∧ i < n then some a else none := by
  unfold smaAt
  rw [List.length_replicate]
  split
  · rename_i h
    rw [List.drop_replicate, List.take_replicate]
    have hmin : min w (n - (i + 1 - w)) = w := by omega
    rw [hmin, List.sum_replicate, nsmul_eq_mul]
    rw [mul_div_cancel_left₀ _ (show (w : ℚ) ≠ 0 from Nat.cast_ne_zero.mpr hw)]
  · rfl

theorem pctChangeAt_replicate (n : ℕ) (a : ℚ) (i : ℕ) (ha : a ≠ 0) :
    pctChangeAt (List.replicate n a) i = if 1 ≤ i ∧ i < n then some 0 else none := by
  unfold pctChangeAt
  rw [List.length_replicate]
  split
  · rename_i h
    rw [getD_replicate, getD_replicate, if_pos h.2, if_pos (by omega), div_self ha]
    norm_num
  · rfl

theorem diffAt_replicate (n : ℕ) (a : ℚ) (i : ℕ) :
    diffAt (List.replicate n a) i = if 1 ≤ i ∧ i < n then some 0 else none := by
  unfold diffAt
  rw [List.length_replicate]
  split
  · rename_i h
    rw [getD_replicate, getD_replicate, if_pos h.2, if_pos (by omega)]
    norm_num
  · rfl

theorem gainAt_replicate (n : ℕ) (a : ℚ) (i : ℕ) :
    gainAt (List.replicate n a) i = 0 := by
  unfold gainAt
  rw [diffAt_replicate]
  by_cases h : 1 ≤ i ∧ i < n
  · rw [if_pos h]
    norm_num
  · rw [if_neg h]

theorem lossAt_replicate (n : ℕ) (a : ℚ) (i : ℕ) :
    lossAt (List.replicate n a) i = 0 := by
  unfold lossAt
  rw [diffAt_replicate]
  by_cases h : 1 ≤ i ∧ i < n
  · rw [if_pos h]
    norm_num
  · rw [if_neg h]

theorem ewmNum_eq_zero (x : ℕ → ℚ) (β : ℚ) (h : ∀ k, x k = 0) :
    ∀ i, ewmNum x β i = 0 := by
  intro i
  induction i with
  | zero => simpa [ewmNum] using h 0
  | succ i ih => simp [ewmNum, ih, h (i + 1)]

theorem avgGainAt_replicate (n : ℕ) (a : ℚ) (i : ℕ) :
    avgGainAt (List.replicate n a) i = if 13 ≤ i ∧ i < n then some 0 else none := by
  unfold avgGainAt
  rw [List.length_replicate]
  split
  · rw [ewmNum_eq_zero _ _ (gainAt_replicate n a), zero_div]
  · rfl

theorem avgLossAt_replicate (n : ℕ) (a : ℚ) (i : ℕ) :
    avgLossAt (List.replicate n a) i = if 13 ≤ i ∧ i < n then some 0 else none := by
  unfold avgLossAt
  rw [List.length_replicate]
  split
  · rw [ewmNum_eq_zero _ _ (lossAt_replicate n a), zero_div]
  · rfl

theorem rsiAt_replicate (n : ℕ) (a : ℚ) (i : ℕ) :
    rsiAt (List.replicate n a) i = none := by
  unfold rsiAt
  rw [avgGainAt_replicate, avgLossAt_replicate]
  by_cases h : 13 ≤ i ∧ i < n
  · rw [if_pos h]
    simp
  · rw [if_neg h]

theorem signalCondV2_replicate (n : ℕ) (a : ℚ) (i : ℕ) :
    signalCondV2 (List.replicate n a) i = false := by
  unfold signalCondV2
  rw [rsiAt_replicate]
  simp

theorem SignalV2_replicate (n : ℕ) (a : ℚ) (i : ℕ) :
    SignalV2 (List.replicate n a) i = 0 := by
  unfold SignalV2
  rw [signalCondV2_replicate]
  rfl

theorem marketAt_replicate (n : ℕ) (a : ℚ) (i : ℕ) (ha : a ≠ 0) :
    marketAt (List.replicate n a) i = if 1 ≤ i ∧ i < n then some 0 else none := by
  unfold marketAt
  exact pctChangeAt_replicate n a i ha

theorem strategyV2_replicate (n : ℕ) (a : ℚ) (i : ℕ) (ha : a ≠ 0) :
    strategyV2 (List.replicate n a) i = if 1 ≤ i ∧ i < n then some 0 else none := by
  unfold strategyV2
  rw [marketAt_replicate n a i ha]
  split <;> simp

theorem filterMap_range_eq_replicate_zero (f : ℕ → Option ℚ) (n : ℕ)
    (h : ∀ i, i < n → f i = if 1 ≤ i then some 0 else none) :
    (List.range n).filterMap f = List.replicate (n - 1) 0 := by
  induction n with
  | zero => rfl
  | succ n ih =>
    rw [List.range_succ, List.filterMap_append, ih (fun i hi => h i (by omega))]
    cases n with
    | zero => simp [h 0 (by omega)]
    | succ m =>
      have hm : f (m + 1) = some 0 := by rw [h (m + 1) (by omega)]; simp
      simp only [List.filterMap, hm]
      rw [← List.replicate_succ']
      simp

theorem stratValsV2_replicate (n : ℕ) (a : ℚ) (ha : a ≠ 0) :
    stratValsV2 (List.replicate n a) = List.replicate (n - 1) 0 := by
  unfold stratValsV2
  rw [List.length_replicate]
  exact filterMap_range_eq_replicate_zero _ n fun i hi => by
    rw [strategyV2_replicate n a i ha]
    split <;> split <;> first | rfl | omega

theorem meanOf_replicate_zero (m : ℕ) (hm : m ≠ 0) :
    meanOf (List.replicate m (0 : ℚ)) = some 0 := by
  unfold meanOf
  rw [if_neg (by simp [hm, ← List.length_eq_zero])]
  rw [List.sum_replicate]
  simp

theorem varOf_replicate_zero (m : ℕ) :
    varOf (List.replicate m (0 : ℚ)) = if m < 2 then none else some 0 := by
  unfold varOf
  rw [List.length_replicate]
  split
  · rfl
  · rw [List.sum_replicate, List.map_replicate]
    simp

theorem trimmedV1_replicate (n : ℕ) (a : ℚ) :
    trimmedV1 (List.replicate n a) = List.replicate (n - 49) a := by
  unfold trimmedV1
  rw [List.drop_replicate]

theorem PositionV1_replicate (n : ℕ) (a : ℚ) (j : ℕ) :
    PositionV1 (List.replicate n a) j = 0 := by
  unfold PositionV1
  rw [smaAt_replicate 10 n a _ (by norm_num), smaAt_replicate 50 n a _ (by norm_num)]
  by_cases h : j + 49 < n
  · rw [if_pos ⟨by omega, h⟩, if_pos ⟨by omega, h⟩]
    simp [lt_irrefl]
  · rw [if_neg (by omega), if_neg (by omega)]

theorem dailyV1_replicate (n : ℕ) (a : ℚ) (j : ℕ) (ha : a ≠ 0) :
    dailyV1 (List.replicate n a) j = if 1 ≤ j ∧ j < n - 49 then some 0 else none := by
  unfold dailyV1
  rw [trimmedV1_replicate]
  exact pctChangeAt_replicate _ a j ha

theorem strategyV1_replicate (n : ℕ) (a : ℚ) (j : ℕ) (ha : a ≠ 0) :
    strategyV1 (List.replicate n a) j = if 1 ≤ j ∧ j < n - 49 then some 0 else none := by
  unfold strategyV1
  rw [dailyV1_replicate n a j ha]
  split <;> simp

theorem stratValsV1_replicate (n : ℕ) (a : ℚ) (ha : a ≠ 0) :
    stratValsV1 (List.replicate n a) = List.replicate (n - 49 - 1) 0 := by
  unfold stratValsV1
  rw [trimmedV1_replicate, List.length_replicate]
  exact filterMap_range_eq_replicate_zero _ (n - 49) fun i hi => by
    rw [strategyV1_replicate n a i ha]
    split <;> split <;> first | rfl | omega

end Backtest

namespace Backtest

/-- C1: for every date `t` after the first, the strategy return at `t` is
the raw daily return `close[t]/close[t-1] - 1` times the signal value of
date `t-1` (one-bar lag), and the market/benchmark return at `t` is the raw
daily return with no lag — in BacktesterV2 on the full frame, and in
BacktesterV1 on its trimmed frame. -/
theorem c1_strategy_lagged_market_unlagged (c : List ℚ) (t : ℕ) (ht : 1 ≤ t) :
    (t < c.length →
      strategyV2 c t = some ((c.getD t 0 / c.getD (t - 1) 0 - 1) * SignalV2 c (t - 1)) ∧
      marketAt c t = some (c.getD t 0 / c.getD (t - 1) 0 - 1)) ∧
    (t < (trimmedV1 c).length →
      strategyV1 c t =
        some (((trimmedV1 c).getD t 0 / (trimmedV1 c).getD (t - 1) 0 - 1) * PositionV1 c (t - 1)) ∧
      dailyV1 c t = some ((trimmedV1 c).getD t 0 / (trimmedV1 c).getD (t - 1) 0 - 1)) := by
  constructor
  · intro hlen
    have hm : marketAt c t = some (c.getD t 0 / c.getD (t - 1) 0 - 1) := by
      unfold marketAt pctChangeAt
      rw [if_pos ⟨ht, hlen⟩]
    refine ⟨?_, hm⟩
    unfold strategyV2
    rw [hm]
    rfl
  · intro hlen
    have hm : dailyV1 c t = some ((trimmedV1 c).getD t 0 / (trimmedV1 c).getD (t - 1) 0 - 1) := by
      unfold dailyV1 pctChangeAt
      rw [if_pos ⟨ht, hlen⟩]
    refine ⟨?_, hm⟩
    unfold strategyV1
    rw [hm]
    rfl

/-- Witness for C1 at the concrete series `sampleA`, date 1 of each frame. -/
theorem c1_strategy_lagged_market_unlagged_witness :
    1 ≤ 1 ∧ 1 < sampleA.length ∧ 1 < (trimmedV1 sampleA).length ∧
    strategyV2 sampleA 1 = some ((sampleA.getD 1 0 / sampleA.getD 0 0 - 1) * SignalV2 sampleA 0) ∧
    strategyV1 sampleA 1 =
      some (((trimmedV1 sampleA).getD 1 0 / (trimmedV1 sampleA).getD 0 0 - 1) * PositionV1 sampleA 0) :=
  ⟨le_refl 1, by decide, by decide,
   ((c1_strategy_lagged_market_unlagged sampleA 1 (le_refl 1)).1 (by decide)).1,
   ((c1_strategy_lagged_market_unlagged sampleA 1 (le_refl 1)).2 (by decide)).1⟩

/-- C3: in BacktesterV2 both cumulative series start at 1.0 on the first
row (the NaN leading return is filled with 0 before compounding) and obey
`cum[t] = cum[t-1] * (1 + return[t])`; BacktesterV1 applies no `fillna`, so
on a 50-bar series its first trimmed row has a NaN strategy return and the
cumulative series keeps a NaN gap there instead of the required 1.0. -/
theorem c3_cumulative_recurrence_and_v1_gap :
    (∀ c : List ℚ,
      cumStrategyV2 c 0 = 1 ∧ cumMarketV2 c 0 = 1 ∧
      (∀ i : ℕ, cumStrategyV2 c (i + 1) = cumStrategyV2 c i * (1 + (strategyV2 c (i + 1)).getD 0)) ∧
      (∀ i : ℕ, cumMarketV2 c (i + 1) = cumMarketV2 c i * (1 + (marketAt c (i + 1)).getD 0))) ∧
    strategyV1 sampleE 0 = none ∧ cumulativeV1 sampleE 0 = none := by
  have hs0 : strategyV1 sampleE 0 = none := by
    unfold sampleE
    rw [strategyV1_replicate 50 100 0 (by norm_num), if_neg (by omega)]
  refine ⟨fun c => ⟨?_, ?_, fun i => rfl, fun i => rfl⟩, hs0, ?_⟩
  · have h0 : strategyV2 c 0 = none := by
      unfold strategyV2 marketAt pctChangeAt
      rw [if_neg (by omega)]
      rfl
    show 1 + (strategyV2 c 0).getD 0 = 1
    rw [h0]
    norm_num
  · have h0 : marketAt c 0 = none := by
      unfold marketAt pctChangeAt
      rw [if_neg (by omega)]
    show 1 + (marketAt c 0).getD 0 = 1
    rw [h0]
    norm_num
  · unfold cumulativeV1 cumprodSkip
    simp [hs0]

/-- C4: BacktesterV2 guards the division — its Sharpe value exists (is
never NaN) for every input, and on the zero-variance 52-bar constant series
the guard reports the literal 0 (encoded `(0, 1)`).  BacktesterV1 has no
guard: on the same series its strategy returns have mean 0 and standard
deviation 0, so `mean/std = 0/0` is NaN (`none`). -/
theorem c4_sharpe_guard_v2_nan_v1 :
    (∀ c : List ℚ, (sharpeV2 c).isSome = true) ∧
    varOf (stratValsV2 sampleC) = some 0 ∧
    sharpeV2 sampleC = some (0, 1) ∧
    meanOf (stratValsV1 sampleC) = some 0 ∧
    varOf (stratValsV1 sampleC) = some 0 ∧
    sharpeV1 sampleC = none := by
  have hv2 : stratValsV2 sampleC = List.replicate 51 0 := by
    unfold sampleC
    rw [stratValsV2_replicate 52 100 (by norm_num)]
  have hv1 : stratValsV1 sampleC = List.replicate 2 0 := by
    unfold sampleC
    rw [stratValsV1_replicate 52 100 (by norm_num)]
  have hvar2 : varOf (stratValsV2 sampleC) = some 0 := by
    rw [hv2, varOf_replicate_zero]
    norm_num
  have hvar1 : varOf (stratValsV1 sampleC) = some 0 := by
    rw [hv1, varOf_replicate_zero]
    norm_num
  have hmean1 : meanOf (stratValsV1 sampleC) = some 0 := by
    rw [hv1]
    exact meanOf_replicate_zero 2 (by norm_num)
  refine ⟨?_, hvar2, ?_, hmean1, hvar1, ?_⟩
  · intro c
    unfold sharpeV2
    cases h : varOf (stratValsV2 c) with
    | none => rfl
    | some v =>
      by_cases hv : 0 < v
      · simp [hv]
      · simp [hv]
  · unfold sharpeV2
    rw [hvar2]
    simp
  · unfold sharpeV1
    rw [hmean1, hvar1]
    simp

/-- C7: both signals are binary and are pure functions of the same date's
indicator values: `SignalV2 = 1` exactly when the fast SMA exceeds the slow
SMA and the RSI is strictly below the overbought threshold 70, and
`PositionV1 = 1` exactly when the fast SMA exceeds the slow SMA. -/
theorem c7_signal_binary_same_date :
    (∀ (c : List ℚ) (i : ℕ),
      (SignalV2 c i = 0 ∨ SignalV2 c i = 1) ∧
      (SignalV2 c i = 1 ↔
        ∃ a b r, smaAt 10 c i = some a ∧ smaAt 50 c i = some b ∧ rsiAt c i = some r ∧
          b < a ∧ r < 70)) ∧
    (∀ (c : List ℚ) (j : ℕ),
      (PositionV1 c j = 0 ∨ PositionV1 c j = 1) ∧
      (PositionV1 c j = 1 ↔
        ∃ a b, smaAt 10 c (j + 49) = some a ∧ smaAt 50 c (j + 49) = some b ∧ b < a)) := by
  constructor
  · intro c i
    constructor
    · unfold SignalV2
      by_cases h : signalCondV2 c i
      · rw [if_pos h]
        exact Or.inr rfl
      · rw [if_neg h]
        exact Or.inl rfl
    · unfold SignalV2 signalCondV2
      cases h10 : smaAt 10 c i <;> cases h50 : smaAt 50 c i <;> cases hr : rsiAt c i <;>
          simp only [Bool.and_eq_true, decide_eq_true_eq, Option.some.injEq] <;>
        simp
  · intro c j
    constructor
    · unfold PositionV1
      cases h10 : smaAt 10 c (j + 49) <;> cases h50 : smaAt 50 c (j + 49) <;>
        try exact Or.inl rfl
      rename_i a b
      by_cases hab : b < a <;> simp [hab]
    · unfold PositionV1
      cases h10 : smaAt 10 c (j + 49) <;> cases h50 : smaAt 50 c (j + 49) <;> simp

end Backtest

namespace Backtest

theorem pctChangeAt_eq_some {c : List ℚ} {i : ℕ} {m : ℚ}
    (h : pctChangeAt c i = some m) :
    1 ≤ i ∧ i < c.length ∧ m = c.getD i 0 / c.getD (i - 1) 0 - 1 := by
  unfold pctChangeAt at h
  by_cases hcond : 1 ≤ i ∧ i < c.length
  · rw [if_pos hcond] at h
    exact ⟨hcond.1, hcond.2, (Option.some_inj.mp h).symm⟩
  · rw [if_neg hcond] at h
    cases h

theorem getD_pos_of_mem {c : List ℚ} (hc : ∀ x ∈ c, (0 : ℚ) < x) {i : ℕ}
    (hi : i < c.length) : 0 < c.getD i 0 := by
  rw [List.getD_eq_getElem _ _ hi]
  exact hc _ (List.getElem_mem hi)

theorem SignalV2_zero_or_one (c : List ℚ) (i : ℕ) :
    SignalV2 c i = 0 ∨ SignalV2 c i = 1 := by
  unfold SignalV2
  by_cases h : signalCondV2 c i
  · rw [if_pos h]
    exact Or.inr rfl
  · rw [if_neg h]
    exact Or.inl rfl

theorem PositionV1_zero_or_one (c : List ℚ) (j : ℕ) :
    PositionV1 c j = 0 ∨ PositionV1 c j = 1 := by
  unfold PositionV1
  cases h10 : smaAt 10 c (j + 49) <;> cases h50 : smaAt 50 c (j + 49) <;>
    try exact Or.inl rfl
  rename_i a b
  by_cases hab : b < a <;> simp [hab]

theorem strategyV2_factor_pos (c : List ℚ) (hc : ∀ x ∈ c, (0 : ℚ) < x) (i : ℕ) :
    0 < 1 + (strategyV2 c i).getD 0 := by
  cases h : strategyV2 c i with
  | none => simp
  | some s =>
    unfold strategyV2 at h
    cases hm : marketAt c i with
    | none =>
      rw [hm] at h
      cases h
    | some m =>
      rw [hm] at h
      simp only [Option.map_some', Option.some.injEq] at h
      obtain ⟨h1, h2, hmval⟩ := pctChangeAt_eq_some hm
      have hratio : 0 < c.getD i 0 / c.getD (i - 1) 0 :=
        div_pos (getD_pos_of_mem hc h2) (getD_pos_of_mem hc (by omega))
      simp only [Option.getD_some]
      rcases SignalV2_zero_or_one c (i - 1) with hs | hs <;> rw [hs] at h
      · rw [← h]
        norm_num
      · rw [← h, hmval]
        have heq : 1 + (c.getD i 0 / c.getD (i - 1) 0 - 1) * 1 =
            c.getD i 0 / c.getD (i - 1) 0 := by ring
        rw [heq]
        exact hratio

theorem strategyV2_at_zero (c : List ℚ) : strategyV2 c 0 = none := by
  unfold strategyV2 marketAt pctChangeAt
  rw [if_neg (by omega)]
  rfl

theorem cumStrategyV2_pos (c : List ℚ) (hc : ∀ x ∈ c, (0 : ℚ) < x) :
    ∀ i, 0 < cumStrategyV2 c i := by
  intro i
  induction i with
  | zero => exact strategyV2_factor_pos c hc 0
  | succ i ih => exact mul_pos ih (strategyV2_factor_pos c hc (i + 1))

theorem cumStrategyV2_le_runMaxV2 (c : List ℚ) : ∀ i, cumStrategyV2 c i ≤ runMaxV2 c i := by
  intro i
  cases i with
  | zero => exact le_refl _
  | succ i => exact le_max_right _ _

theorem runMaxV2_pos (c : List ℚ) : ∀ i, 0 < runMaxV2 c i := by
  intro i
  induction i with
  | zero =>
    show (0 : ℚ) < cumStrategyV2 c 0
    show (0 : ℚ) < 1 + (strategyV2 c 0).getD 0
    rw [strategyV2_at_zero]
    norm_num
  | succ i ih => exact lt_of_lt_of_le ih (le_max_left _ _)

theorem drawdownV2_nonpos (c : List ℚ) (i : ℕ) : drawdownV2 c i ≤ 0 := by
  unfold drawdownV2
  rw [sub_nonpos]
  exact (div_le_one (runMaxV2_pos c i)).mpr (cumStrategyV2_le_runMaxV2 c i)

theorem minList_cons_isSome (x : ℚ) (xs : List ℚ) : (minList (x :: xs)).isSome = true := by
  unfold minList
  cases minList xs <;> rfl

theorem minList_le_mem (l : List ℚ) (m : ℚ) (h : minList l = some m) :
    ∀ x ∈ l, m ≤ x := by
  induction l generalizing m with
  | nil => cases h
  | cons x xs ih =>
    intro y hy
    unfold minList at h
    cases h' : minList xs with
    | none =>
      rw [h'] at h
      have hm : m = x := (Option.some_inj.mp h).symm
      cases xs with
      | nil =>
        rcases List.mem_singleton.mp hy with rfl
        exact le_of_eq hm
      | cons a as =>
        have := minList_cons_isSome a as
        rw [h'] at this
        cases this
    | some m' =>
      rw [h'] at h
      have hm : m = min x m' := (Option.some_inj.mp h).symm
      rcases List.mem_cons.mp hy with rfl | hy'
      · rw [hm]
        exact min_le_left _ _
      · rw [hm]
        exact le_trans (min_le_right _ _) (ih m' h' y hy')

theorem minList_mem (l : List ℚ) (m : ℚ) (h : minList l = some m) : m ∈ l := by
  induction l generalizing m with
  | nil => cases h
  | cons x xs ih =>
    unfold minList at h
    cases h' : minList xs with
    | none =>
      rw [h'] at h
      rw [← Option.some_inj.mp h]
      exact List.mem_cons_self x xs
    | some m' =>
      rw [h'] at h
      have hm : m = min x m' := (Option.some_inj.mp h).symm
      by_cases hle : x ≤ m'
      · rw [hm, min_eq_left hle]
        exact List.mem_cons_self x xs
      · rw [hm, min_eq_right (le_of_not_le hle)]
        exact List.mem_cons_of_mem x (ih m' h')

theorem prodDefUpTo_pos (f : ℕ → Option ℚ) (hf : ∀ k, 0 < (f k).getD 1) :
    ∀ i, 0 < prodDefUpTo f i := by
  intro i
  induction i with
  | zero => exact hf 0
  | succ i ih => exact mul_pos ih (hf (i + 1))

theorem maxDefUpTo_ge (f : ℕ → Option ℚ) (i : ℕ) (x : ℚ) (h : f i = some x) :
    ∃ M, maxDefUpTo f i = some M ∧ x ≤ M := by
  cases i with
  | zero => exact ⟨x, by unfold maxDefUpTo; rw [h], le_refl x⟩
  | succ i =>
    unfold maxDefUpTo
    rw [h]
    cases maxDefUpTo f i with
    | none => exact ⟨x, rfl, le_refl x⟩
    | some m => exact ⟨max m x, rfl, le_max_right m x⟩

theorem maxDefUpTo_pos (f : ℕ → Option ℚ) (hpos : ∀ k y, f k = some y → 0 < y) :
    ∀ i M, maxDefUpTo f i = some M → 0 < M := by
  intro i
  induction i with
  | zero =>
    intro M h
    exact hpos 0 M h
  | succ i ih =>
    intro M h
    unfold maxDefUpTo at h
    cases hM : maxDefUpTo f i with
    | none =>
      rw [hM] at h
      cases hf : f (i + 1) with
      | none =>
        rw [hf] at h
        cases h
      | some x =>
        rw [hf] at h
        rw [← Option.some_inj.mp h]
        exact hpos (i + 1) x hf
    | some m =>
      rw [hM] at h
      cases hf : f (i + 1) with
      | none =>
        rw [hf] at h
        rw [← Option.some_inj.mp h]
        exact ih m hM
      | some x =>
        rw [hf] at h
        rw [← Option.some_inj.mp h]
        exact lt_max_of_lt_left (ih m hM)

theorem strategyV1_factor_pos (c : List ℚ) (hc : ∀ x ∈ c, (0 : ℚ) < x) (k : ℕ) :
    0 < ((strategyV1 c k).map (· + 1)).getD 1 := by
  cases h : strategyV1 c k with
  | none => simp
  | some s =>
    simp only [Option.map_some', Option.getD_some]
    unfold strategyV1 at h
    cases hm : dailyV1 c k with
    | none =>
      rw [hm] at h
      cases h
    | some m =>
      rw [hm] at h
      simp only [Option.map_some', Option.some.injEq] at h
      unfold dailyV1 at hm
      obtain ⟨h1, h2, hmval⟩ := pctChangeAt_eq_some hm
      have htrim : ∀ x ∈ trimmedV1 c, (0 : ℚ) < x := by
        intro x hx
        exact hc x (List.drop_subset 49 c hx)
      have hratio : 0 < (trimmedV1 c).getD k 0 / (trimmedV1 c).getD (k - 1) 0 :=
        div_pos (getD_pos_of_mem htrim h2) (getD_pos_of_mem htrim (by omega))
      rcases PositionV1_zero_or_one c (k - 1) with hp | hp <;> rw [hp] at h
      · rw [← h]
        norm_num
      · rw [← h, hmval]
        have heq : (trimmedV1 c).getD k 0 / (trimmedV1 c).getD (k - 1) 0 - 1 + 1 =
            (trimmedV1 c).getD k 0 / (trimmedV1 c).getD (k - 1) 0 := by ring
        rw [mul_one, heq]
        exact hratio

theorem cumulativeV1_pos (c : List ℚ) (hc : ∀ x ∈ c, (0 : ℚ) < x) :
    ∀ k y, cumulativeV1 c k = some y → 0 < y := by
  intro k y h
  unfold cumulativeV1 cumprodSkip at h
  cases hstrat : strategyV1 c k with
  | none => simp [hstrat] at h
  | some s =>
    simp only [hstrat, Option.map_some', Option.some.injEq] at h
    rw [← h]
    exact prodDefUpTo_pos _ (strategyV1_factor_pos c hc) k

end Backtest

namespace Backtest

theorem gainAt_nonneg (c : List ℚ) (i : ℕ) : 0 ≤ gainAt c i := by
  unfold gainAt
  cases diffAt c i with
  | none => exact le_refl 0
  | some d =>
    show 0 ≤ if 0 < d then d else 0
    split
    · rename_i hd
      exact le_of_lt hd
    · exact le_refl 0

theorem lossAt_nonneg (c : List ℚ) (i : ℕ) : 0 ≤ lossAt c i := by
  unfold lossAt
  cases diffAt c i with
  | none => exact le_refl 0
  | some d =>
    show 0 ≤ if d < 0 then -d else 0
    split
    · rename_i hd
      linarith
    · exact le_refl 0

theorem ewmDen_pos (β : ℚ) (hβ : 0 ≤ β) : ∀ i, 0 < ewmDen β i := by
  intro i
  induction i with
  | zero => norm_num [ewmDen]
  | succ i ih =>
    show 0 < 1 + β * ewmDen β i
    have := mul_nonneg hβ (le_of_lt ih)
    linarith

theorem ewmNum_nonneg (x : ℕ → ℚ) (β : ℚ) (hx : ∀ k, 0 ≤ x k) (hβ : 0 ≤ β) :
    ∀ i, 0 ≤ ewmNum x β i := by
  intro i
  induction i with
  | zero => exact hx 0
  | succ i ih =>
    show 0 ≤ x (i + 1) + β * ewmNum x β i
    have := mul_nonneg hβ ih
    have := hx (i + 1)
    linarith

theorem avgGainAt_nonneg {c : List ℚ} {i : ℕ} {g : ℚ} (h : avgGainAt c i = some g) :
    0 ≤ g := by
  unfold avgGainAt at h
  by_cases hcond : 13 ≤ i ∧ i < c.length
  · rw [if_pos hcond] at h
    rw [← Option.some_inj.mp h]
    exact div_nonneg
      (ewmNum_nonneg _ _ (gainAt_nonneg c) (by norm_num) i)
      (le_of_lt (ewmDen_pos _ (by norm_num) i))
  · rw [if_neg hcond] at h
    cases h

theorem avgLossAt_nonneg {c : List ℚ} {i : ℕ} {l : ℚ} (h : avgLossAt c i = some l) :
    0 ≤ l := by
  unfold avgLossAt at h
  by_cases hcond : 13 ≤ i ∧ i < c.length
  · rw [if_pos hcond] at h
    rw [← Option.some_inj.mp h]
    exact div_nonneg
      (ewmNum_nonneg _ _ (lossAt_nonneg c) (by norm_num) i)
      (le_of_lt (ewmDen_pos _ (by norm_num) i))
  · rw [if_neg hcond] at h
    cases h

theorem rsiAt_bounds {c : List ℚ} {i : ℕ} {r : ℚ} (h : rsiAt c i = some r) :
    0 ≤ r ∧ r ≤ 100 := by
  unfold rsiAt at h
  cases hg : avgGainAt c i with
  | none => simp [hg] at h
  | some g =>
    cases hl : avgLossAt c i with
    | none => simp [hg, hl] at h
    | some l =>
      simp only [hg, hl] at h
      by_cases hl0 : l = 0
      · rw [if_pos hl0] at h
        by_cases hg0 : g = 0
        · rw [if_pos hg0] at h
          cases h
        · rw [if_neg hg0] at h
          rw [← Option.some_inj.mp h]
          norm_num
      · rw [if_neg hl0] at h
        have hr : 100 - 100 / (1 + g / l) = r := Option.some_inj.mp h
        have hgn : 0 ≤ g := avgGainAt_nonneg hg
        have hln : 0 ≤ l := avgLossAt_nonneg hl
        have hq : 0 ≤ g / l := div_nonneg hgn hln
        have hpos : 0 < 100 / (1 + g / l) := div_pos (by norm_num) (by linarith)
        have hle : 100 / (1 + g / l) ≤ 100 := div_le_self (by norm_num) (by linarith)
        constructor <;> linarith

/-- C5: every defined RSI value lies in `[0, 100]`, and the RSI equals 100
exactly when the smoothed average loss is 0 while the average gain is not.
The spec's demand that a zero average loss always yield the explicit value
100 fails on the code: on the constant 20-bar series the average loss *and*
the average gain at row 14 are both 0, so `RS = 0/0` is NaN and the RSI is
NaN (`none`), not 100. -/
theorem c5_rsi_bound_and_nan :
    (∀ (c : List ℚ) (i : ℕ), (rsiAt c i).all (fun r => decide (0 ≤ r ∧ r ≤ 100)) = true) ∧
    (∀ (c : List ℚ) (i : ℕ),
      (rsiAt c i = some 100 ↔ avgLossAt c i = some 0 ∧ ∃ g, avgGainAt c i = some g ∧ g ≠ 0)) ∧
    avgLossAt sampleD 14 = some 0 ∧ avgGainAt sampleD 14 = some 0 ∧ rsiAt sampleD 14 = none := by
  refine ⟨?_, ?_, ?_, ?_, ?_⟩
  · intro c i
    cases h : rsiAt c i with
    | none => rfl
    | some r =>
      show decide (0 ≤ r ∧ r ≤ 100) = true
      exact decide_eq_true (rsiAt_bounds h)
  · intro c i
    constructor
    · intro h
      unfold rsiAt at h
      cases hg : avgGainAt c i with
      | none => simp [hg] at h
      | some g =>
        cases hl : avgLossAt c i with
        | none => simp [hg, hl] at h
        | some l =>
          simp only [hg, hl] at h
          by_cases hl0 : l = 0
          · rw [if_pos hl0] at h
            by_cases hg0 : g = 0
            · rw [if_pos hg0] at h
              cases h
            · rw [if_neg hg0] at h
              exact ⟨by rw [hl0], g, rfl, hg0⟩
          · rw [if_neg hl0] at h
            have heq : 100 - 100 / (1 + g / l) = 100 := Option.some_inj.mp h
            have hgn : 0 ≤ g := avgGainAt_nonneg hg
            have hln : 0 ≤ l := avgLossAt_nonneg hl
            have hq : 0 ≤ g / l := div_nonneg hgn hln
            have hpos : 0 < 100 / (1 + g / l) := div_pos (by norm_num) (by linarith)
            exact absurd heq (by linarith)
    · rintro ⟨hl, g, hg, hg0⟩
      unfold rsiAt
      simp only [hg, hl]
      simp [hg0]
  · unfold sampleD
    rw [avgLossAt_replicate, if_pos (by omega)]
  · unfold sampleD
    rw [avgGainAt_replicate, if_pos (by omega)]
  · unfold sampleD
    exact rsiAt_replicate 20 100 14

theorem drawdownV1_defined_nonpos (c : List ℚ) (hc : ∀ x ∈ c, (0 : ℚ) < x) (j : ℕ)
    (hj1 : 1 ≤ j) (hj2 : j < (trimmedV1 c).length) :
    ∃ d, drawdownV1 c j = some d ∧ d ≤ 0 := by
  obtain ⟨s, hs⟩ : ∃ s, strategyV1 c j = some s := by
    unfold strategyV1 dailyV1 pctChangeAt
    rw [if_pos ⟨hj1, hj2⟩]
    exact ⟨_, rfl⟩
  have hcum : cumulativeV1 c j =
      some (prodDefUpTo (fun k => (strategyV1 c k).map (· + 1)) j) := by
    unfold cumulativeV1 cumprodSkip
    simp [hs]
  set x := prodDefUpTo (fun k => (strategyV1 c k).map (· + 1)) j with hxdef
  obtain ⟨M, hM, hxM⟩ := maxDefUpTo_ge (cumulativeV1 c) j x hcum
  have hMpos : 0 < M := maxDefUpTo_pos (cumulativeV1 c) (cumulativeV1_pos c hc) j M hM
  have hrun : runMaxV1 c j = some M := by
    unfold runMaxV1 cummaxSkip
    rw [hcum]
    simpa using hM
  refine ⟨x / M - 1, ?_, ?_⟩
  · unfold drawdownV1
    rw [hcum, hrun]
  · rw [sub_nonpos]
    exact (div_le_one hMpos).mpr hxM

theorem drawdownV1_some_nonpos (c : List ℚ) (hc : ∀ x ∈ c, (0 : ℚ) < x) (j : ℕ) (d : ℚ)
    (h : drawdownV1 c j = some d) : d ≤ 0 := by
  unfold drawdownV1 at h
  cases hcum : cumulativeV1 c j with
  | none => simp [hcum] at h
  | some x =>
    cases hrun : runMaxV1 c j with
    | none => simp [hcum, hrun] at h
    | some M =>
      simp only [hcum, hrun, Option.some.injEq] at h
      have hrun' : maxDefUpTo (cumulativeV1 c) j = some M := by
        unfold runMaxV1 cummaxSkip at hrun
        rw [hcum] at hrun
        simpa using hrun
      obtain ⟨M', hM', hxM'⟩ := maxDefUpTo_ge (cumulativeV1 c) j x hcum
      rw [hrun'] at hM'
      injection hM' with hMM
      rw [← hMM] at hxM'
      have hMpos : 0 < M := maxDefUpTo_pos (cumulativeV1 c) (cumulativeV1_pos c hc) j M hrun'
      rw [← h, sub_nonpos]
      exact (div_le_one hMpos).mpr hxM'

/-- C6: in BacktesterV2 every drawdown value `cum/runmax - 1` is ≤ 0 and the
reported maximum drawdown is the minimum drawdown value — it is attained,
bounds every drawdown from below and is itself ≤ 0; in BacktesterV1 every
defined drawdown row (all trimmed rows after the first) is ≤ 0 and its
reported maximum drawdown is likewise the attained minimum of the defined
drawdown values, bounding them all from below. -/
theorem c6_drawdown_nonpos_min (c : List ℚ) (hc : ∀ x ∈ c, (0 : ℚ) < x) :
    (∀ i, i < c.length → drawdownV2 c i ≤ 0) ∧
    (0 < c.length → ∃ m, maxDDV2 c = some m ∧ m ≤ 0 ∧
      (∀ i, i < c.length → m ≤ drawdownV2 c i) ∧
      (∃ i, i < c.length ∧ drawdownV2 c i = m)) ∧
    (∀ j, 1 ≤ j → j < (trimmedV1 c).length → ∃ d, drawdownV1 c j = some d ∧ d ≤ 0) ∧
    (2 ≤ (trimmedV1 c).length → ∃ m, maxDDV1 c = some m ∧ m ≤ 0 ∧
      (∀ j d, j < (trimmedV1 c).length → drawdownV1 c j = some d → m ≤ d) ∧
      (∃ j, j < (trimmedV1 c).length ∧ drawdownV1 c j = some m)) := by
  refine ⟨fun i _ => drawdownV2_nonpos c i, ?_,
    fun j hj1 hj2 => drawdownV1_defined_nonpos c hc j hj1 hj2, ?_⟩
  · intro hlen
    obtain ⟨m, hm⟩ : ∃ m, minList (ddListV2 c) = some m := by
      cases hdd : ddListV2 c with
      | nil =>
        have : (ddListV2 c).length = c.length := by
          unfold ddListV2
          simp
        rw [hdd] at this
        simp at this
        omega
      | cons x xs =>
        have h := minList_cons_isSome x xs
        exact Option.isSome_iff_exists.mp h
    have hmem := minList_mem _ _ hm
    unfold ddListV2 at hmem
    obtain ⟨i, hirange, hdi⟩ := List.mem_map.mp hmem
    refine ⟨m, hm, ?_, ?_, ⟨i, List.mem_range.mp hirange, hdi⟩⟩
    · rw [← hdi]
      exact drawdownV2_nonpos c i
    · intro k hk
      exact minList_le_mem _ _ hm _
        (List.mem_map.mpr ⟨k, List.mem_range.mpr hk, rfl⟩)
  · intro hlen
    obtain ⟨d1, hd1, _⟩ := drawdownV1_defined_nonpos c hc 1 (le_refl 1) (by omega)
    have hmem1 : d1 ∈ (List.range (trimmedV1 c).length).filterMap (drawdownV1 c) :=
      List.mem_filterMap.mpr ⟨1, List.mem_range.mpr (by omega), hd1⟩
    obtain ⟨m, hm⟩ :
        ∃ m, minList ((List.range (trimmedV1 c).length).filterMap (drawdownV1 c)) = some m := by
      cases hL : (List.range (trimmedV1 c).length).filterMap (drawdownV1 c) with
      | nil =>
        rw [hL] at hmem1
        exact absurd hmem1 (List.not_mem_nil _)
      | cons x xs => exact Option.isSome_iff_exists.mp (minList_cons_isSome x xs)
    have hmmem := minList_mem _ _ hm
    obtain ⟨j, hjr, hdj⟩ := List.mem_filterMap.mp hmmem
    refine ⟨m, by unfold maxDDV1; exact hm, drawdownV1_some_nonpos c hc j m hdj, ?_,
      ⟨j, List.mem_range.mp hjr, hdj⟩⟩
    intro k d hk hd
    exact minList_le_mem _ _ hm _ (List.mem_filterMap.mpr ⟨k, List.mem_range.mpr hk, hd⟩)

/-- Witness for C6 at the concrete positive series `sampleC` (whose trimmed
V1 frame has 3 rows, so the V1 maximum-drawdown conjunct is non-vacuous). -/
theorem c6_drawdown_nonpos_min_witness :
    (∀ x ∈ sampleC, (0 : ℚ) < x) ∧
    ((∀ i, i < sampleC.length → drawdownV2 sampleC i ≤ 0) ∧
     (0 < sampleC.length → ∃ m, maxDDV2 sampleC = some m ∧ m ≤ 0 ∧
       (∀ i, i < sampleC.length → m ≤ drawdownV2 sampleC i) ∧
       (∃ i, i < sampleC.length ∧ drawdownV2 sampleC i = m)) ∧
     (∀ j, 1 ≤ j → j < (trimmedV1 sampleC).length →
       ∃ d, drawdownV1 sampleC j = some d ∧ d ≤ 0) ∧
     (2 ≤ (trimmedV1 sampleC).length → ∃ m, maxDDV1 sampleC = some m ∧ m ≤ 0 ∧
       (∀ j d, j < (trimmedV1 sampleC).length → drawdownV1 sampleC j = some d → m ≤ d) ∧
       (∃ j, j < (trimmedV1 sampleC).length ∧ drawdownV1 sampleC j = some m))) := by
  have hpos : ∀ x ∈ sampleC, (0 : ℚ) < x := by
    intro x hx
    unfold sampleC at hx
    rw [List.mem_replicate] at hx
    rw [hx.2]
    norm_num
  exact ⟨hpos, c6_drawdown_nonpos_min sampleC hpos⟩

end Backtest

namespace Backtest

theorem getD_eq_of_take_eq {c1 c2 : List ℚ} {t i : ℕ}
    (h : c1.take t = c2.take t) (hi : i < t) :
    c1.getD i 0 = c2.getD i 0 := by
  rw [List.getD_eq_getElem?_getD, List.getD_eq_getElem?_getD]
  have e1 : c1[i]? = (c1.take t)[i]? := by
    rw [List.getElem?_take, if_pos hi]
  have e2 : c2[i]? = (c2.take t)[i]? := by
    rw [List.getElem?_take, if_pos hi]
  rw [e1, e2, h]

theorem window_eq_of_take_eq {c1 c2 : List ℚ} {t a b : ℕ}
    (h : c1.take t = c2.take t) (hab : a + b ≤ t) :
    (c1.drop a).take b = (c2.drop a).take b := by
  have e : ∀ c : List ℚ, (c.drop a).take b = ((c.take t).drop a).take b := by
    intro c
    rw [List.drop_take, List.take_take, min_eq_left (by omega)]
  rw [e c1, e c2, h]

theorem smaAt_eq_of_take_eq {c1 c2 : List ℚ} {t w i : ℕ}
    (h : c1.take t = c2.take t) (hl1 : t ≤ c1.length) (hl2 : t ≤ c2.length)
    (hi : i < t) :
    smaAt w c1 i = smaAt w c2 i := by
  unfold smaAt
  by_cases hw : w ≤ i + 1
  · rw [if_pos ⟨hw, by omega⟩, if_pos ⟨hw, by omega⟩,
      window_eq_of_take_eq h (show (i + 1 - w) + w ≤ t by omega)]
  · rw [if_neg (by tauto), if_neg (by tauto)]

theorem diffAt_eq_of_take_eq {c1 c2 : List ℚ} {t i : ℕ}
    (h : c1.take t = c2.take t) (hl1 : t ≤ c1.length) (hl2 : t ≤ c2.length)
    (hi : i < t) :
    diffAt c1 i = diffAt c2 i := by
  unfold diffAt
  by_cases h1 : 1 ≤ i
  · rw [if_pos ⟨h1, by omega⟩, if_pos ⟨h1, by omega⟩,
      getD_eq_of_take_eq h hi, getD_eq_of_take_eq h (show i - 1 < t by omega)]
  · rw [if_neg (by tauto), if_neg (by tauto)]

theorem pctChangeAt_eq_of_take_eq {c1 c2 : List ℚ} {t i : ℕ}
    (h : c1.take t = c2.take t) (hl1 : t ≤ c1.length) (hl2 : t ≤ c2.length)
    (hi : i < t) :
    pctChangeAt c1 i = pctChangeAt c2 i := by
  unfold pctChangeAt
  by_cases h1 : 1 ≤ i
  · rw [if_pos ⟨h1, by omega⟩, if_pos ⟨h1, by omega⟩,
      getD_eq_of_take_eq h hi, getD_eq_of_take_eq h (show i - 1 < t by omega)]
  · rw [if_neg (by tauto), if_neg (by tauto)]

theorem gainAt_eq_of_take_eq {c1 c2 : List ℚ} {t i : ℕ}
    (h : c1.take t = c2.take t) (hl1 : t ≤ c1.length) (hl2 : t ≤ c2.length)
    (hi : i < t) :
    gainAt c1 i = gainAt c2 i := by
  unfold gainAt
  rw [diffAt_eq_of_take_eq h hl1 hl2 hi]

theorem lossAt_eq_of_take_eq {c1 c2 : List ℚ} {t i : ℕ}
    (h : c1.take t = c2.take t) (hl1 : t ≤ c1.length) (hl2 : t ≤ c2.length)
    (hi : i < t) :
    lossAt c1 i = lossAt c2 i := by
  unfold lossAt
  rw [diffAt_eq_of_take_eq h hl1 hl2 hi]

theorem ewmNum_congr (x y : ℕ → ℚ) (β : ℚ) (i : ℕ) (h : ∀ k, k ≤ i → x k = y k) :
    ewmNum x β i = ewmNum y β i := by
  induction i with
  | zero => exact h 0 (le_refl 0)
  | succ i ih =>
    show x (i + 1) + β * ewmNum x β i = y (i + 1) + β * ewmNum y β i
    rw [h (i + 1) (le_refl _), ih (fun k hk => h k (by omega))]

theorem avgGainAt_eq_of_take_eq {c1 c2 : List ℚ} {t i : ℕ}
    (h : c1.take t = c2.take t) (hl1 : t ≤ c1.length) (hl2 : t ≤ c2.length)
    (hi : i < t) :
    avgGainAt c1 i = avgGainAt c2 i := by
  unfold avgGainAt
  by_cases h13 : 13 ≤ i
  · rw [if_pos ⟨h13, by omega⟩, if_pos ⟨h13, by omega⟩,
      ewmNum_congr (gainAt c1) (gainAt c2) _ i
        (fun k hk => gainAt_eq_of_take_eq h hl1 hl2 (by omega))]
  · rw [if_neg (by tauto), if_neg (by tauto)]

theorem avgLossAt_eq_of_take_eq {c1 c2 : List ℚ} {t i : ℕ}
    (h : c1.take t = c2.take t) (hl1 : t ≤ c1.length) (hl2 : t ≤ c2.length)
    (hi : i < t) :
    avgLossAt c1 i = avgLossAt c2 i := by
  unfold avgLossAt
  by_cases h13 : 13 ≤ i
  · rw [if_pos ⟨h13, by omega⟩, if_pos ⟨h13, by omega⟩,
      ewmNum_congr (lossAt c1) (lossAt c2) _ i
        (fun k hk => lossAt_eq_of_take_eq h hl1 hl2 (by omega))]
  · rw [if_neg (by tauto), if_neg (by tauto)]

theorem rsiAt_eq_of_take_eq {c1 c2 : List ℚ} {t i : ℕ}
    (h : c1.take t = c2.take t) (hl1 : t ≤ c1.length) (hl2 : t ≤ c2.length)
    (hi : i < t) :
    rsiAt c1 i = rsiAt c2 i := by
  unfold rsiAt
  rw [avgGainAt_eq_of_take_eq h hl1 hl2 hi, avgLossAt_eq_of_take_eq h hl1 hl2 hi]

theorem SignalV2_eq_of_take_eq {c1 c2 : List ℚ} {t i : ℕ}
    (h : c1.take t = c2.take t) (hl1 : t ≤ c1.length) (hl2 : t ≤ c2.length)
    (hi : i < t) :
    SignalV2 c1 i = SignalV2 c2 i := by
  unfold SignalV2 signalCondV2
  rw [smaAt_eq_of_take_eq h hl1 hl2 hi, smaAt_eq_of_take_eq h hl1 hl2 hi,
    rsiAt_eq_of_take_eq h hl1 hl2 hi]

theorem PositionV1_eq_of_take_eq {c1 c2 : List ℚ} {t j : ℕ}
    (h : c1.take t = c2.take t) (hl1 : t ≤ c1.length) (hl2 : t ≤ c2.length)
    (hj : j + 49 < t) :
    PositionV1 c1 j = PositionV1 c2 j := by
  unfold PositionV1
  rw [smaAt_eq_of_take_eq h hl1 hl2 hj, smaAt_eq_of_take_eq h hl1 hl2 hj]

theorem take_eq_of_take_succ_eq {c1 c2 : List ℚ} {t : ℕ}
    (h : c1.take (t + 1) = c2.take (t + 1)) : c1.take t = c2.take t := by
  have e : ∀ c : List ℚ, c.take t = (c.take (t + 1)).take t := by
    intro c
    rw [List.take_take, min_eq_left (by omega)]
  rw [e c1, e c2, h]

theorem drop_replicate_append (k n : ℕ) (a : ℚ) (l : List ℚ) (h : k ≤ n) :
    (List.replicate n a ++ l).drop k = List.replicate (n - k) a ++ l := by
  have h2 : List.replicate n a = List.replicate k a ++ List.replicate (n - k) a := by
    rw [← List.replicate_add]
    congr 1
    omega
  rw [h2, List.append_assoc]
  have h3 := List.drop_left (List.replicate k a) (List.replicate (n - k) a ++ l)
  rwa [List.length_replicate] at h3

theorem take_replicate_append (k : ℕ) (a b : ℚ) (rest : List ℚ) :
    (List.replicate k a ++ b :: rest).take (k + 1) = List.replicate k a ++ [b] := by
  have h2 : List.replicate k a ++ b :: rest = (List.replicate k a ++ [b]) ++ rest := by
    rw [List.append_assoc]
    rfl
  rw [h2]
  have h3 := List.take_left (List.replicate k a ++ [b]) rest
  rwa [List.length_append, List.length_replicate, List.length_singleton] at h3

/-- C2 counterexample: the two sample series agree on every bar before date
51 and the position/signal visible at date 50 is the same, yet the strategy
return *at* date 51 (trimmed row 2 of BacktesterV1) differs, because it is
the return realized during day 51 — perturbing the bar at date `t` does
change strategy return `t`.  The claim, which asserts that the strategy
return at `t` is unaffected by any perturbation at dates ≥ `t`, is false. -/
theorem c2_perturbation_counterexample :
    sampleA.take 51 = sampleB.take 51 ∧
    PositionV1 sampleA 1 = PositionV1 sampleB 1 ∧
    strategyV1 sampleA 2 ≠ strategyV1 sampleB 2 := by
  have htake : sampleA.take 51 = sampleB.take 51 := by
    have h1 : sampleA.take 51 = List.replicate 50 (100 : ℚ) ++ [110] := by
      unfold sampleA
      rw [show (51 : ℕ) = 50 + 1 from rfl]
      exact take_replicate_append 50 100 110 [110]
    have h2 : sampleB.take 51 = List.replicate 50 (100 : ℚ) ++ [110] := by
      unfold sampleB
      rw [show (51 : ℕ) = 50 + 1 from rfl]
      exact take_replicate_append 50 100 110 [120]
    rw [h1, h2]
  have hlenA : sampleA.length = 52 := by
    unfold sampleA
    simp
  have hlenB : sampleB.length = 52 := by
    unfold sampleB
    simp
  have hsma10 : smaAt 10 sampleA 50 = some 101 := by
    unfold smaAt
    rw [if_pos ⟨by norm_num, by omega⟩]
    rw [show (50 : ℕ) + 1 - 10 = 41 from rfl]
    unfold sampleA
    rw [drop_replicate_append 41 50 100 [110, 110] (by omega)]
    rw [show (50 : ℕ) - 41 = 9 from rfl]
    rw [show (10 : ℕ) = 9 + 1 from rfl, take_replicate_append 9 100 110 [110]]
    rw [List.sum_append, List.sum_replicate, nsmul_eq_mul]
    norm_num
  have hsma50 : smaAt 50 sampleA 50 = some (501 / 5) := by
    unfold smaAt
    rw [if_pos ⟨by norm_num, by omega⟩]
    rw [show (50 : ℕ) + 1 - 50 = 1 from rfl]
    unfold sampleA
    rw [drop_replicate_append 1 50 100 [110, 110] (by omega)]
    rw [show (50 : ℕ) - 1 = 49 from rfl]
    rw [show (50 : ℕ) = 49 + 1 from rfl, take_replicate_append 49 100 110 [110]]
    rw [List.sum_append, List.sum_replicate, nsmul_eq_mul]
    norm_num
  have hposA : PositionV1 sampleA 1 = 1 := by
    unfold PositionV1
    rw [show (1 : ℕ) + 49 = 50 from rfl, hsma10, hsma50]
    norm_num
  have hposB : PositionV1 sampleB 1 = 1 := by
    rw [← PositionV1_eq_of_take_eq htake (by omega) (by omega) (show 1 + 49 < 51 by omega)]
    exact hposA
  have htrimA : trimmedV1 sampleA = [100, 110, 110] := by
    unfold trimmedV1 sampleA
    rw [drop_replicate_append 49 50 100 [110, 110] (by omega)]
    rfl
  have htrimB : trimmedV1 sampleB = [100, 110, 120] := by
    unfold trimmedV1 sampleB
    rw [drop_replicate_append 49 50 100 [110, 120] (by omega)]
    rfl
  have hstratA : strategyV1 sampleA 2 = some 0 := by
    unfold strategyV1 dailyV1 pctChangeAt
    rw [htrimA]
    rw [if_pos ⟨by norm_num, by norm_num⟩]
    simp only [Option.map_some']
    rw [show (2 : ℕ) - 1 = 1 from rfl, hposA]
    norm_num [List.getD_cons_succ, List.getD_cons_zero]
  have hstratB : strategyV1 sampleB 2 = some (1 / 11) := by
    unfold strategyV1 dailyV1 pctChangeAt
    rw [htrimB]
    rw [if_pos ⟨by norm_num, by norm_num⟩]
    simp only [Option.map_some']
    rw [show (2 : ℕ) - 1 = 1 from rfl, hposB]
    norm_num [List.getD_cons_succ, List.getD_cons_zero]
  refine ⟨htake, by rw [hposA, hposB], ?_⟩
  rw [hstratA, hstratB]
  intro hcontra
  have := Option.some_inj.mp hcontra
  norm_num at this

/-- C2 (amended): the genuine no-look-ahead property.  If two series agree
on all bars before date `t`, the signals computed at date `t-1` agree
(BacktesterV2 `Signal`, BacktesterV1 `Position` for every trimmed row whose
original date is before `t`), and so do all strategy returns realized
strictly before `t`; the strategy return *at* `t` agrees as soon as the
series also agree on the bar at `t` itself (it cannot depend on anything
later). -/
theorem c2_no_lookahead_amended (c1 c2 : List ℚ) (t : ℕ) (ht : 1 ≤ t)
    (hl1 : t ≤ c1.length) (hl2 : t ≤ c2.length) (hpre : c1.take t = c2.take t) :
    SignalV2 c1 (t - 1) = SignalV2 c2 (t - 1) ∧
    (∀ j, j + 49 < t → PositionV1 c1 j = PositionV1 c2 j) ∧
    (t < c1.length → t < c2.length → c1.take (t + 1) = c2.take (t + 1) →
      strategyV2 c1 t = strategyV2 c2 t) ∧
    (∀ j, 1 ≤ j → j + 49 < t → strategyV1 c1 j = strategyV1 c2 j) := by
  refine ⟨SignalV2_eq_of_take_eq hpre hl1 hl2 (by omega), ?_, ?_, ?_⟩
  · intro j hj
    exact PositionV1_eq_of_take_eq hpre hl1 hl2 hj
  · intro ht1 ht2 hpre1
    unfold strategyV2 marketAt
    rw [pctChangeAt_eq_of_take_eq hpre1 (by omega) (by omega) (by omega),
      SignalV2_eq_of_take_eq hpre hl1 hl2 (by omega)]
  · intro j hj1 hj
    unfold strategyV1 dailyV1
    have htr : (trimmedV1 c1).take (t - 49) = (trimmedV1 c2).take (t - 49) := by
      unfold trimmedV1
      exact window_eq_of_take_eq hpre (by omega)
    rw [pctChangeAt_eq_of_take_eq htr
        (by unfold trimmedV1; rw [List.length_drop]; omega)
        (by unfold trimmedV1; rw [List.length_drop]; omega) (by omega),
      PositionV1_eq_of_take_eq hpre hl1 hl2 (by omega)]

/-- Witness for the amended C2 at two concrete series that diverge from
date 51 on. -/
theorem c2_no_lookahead_amended_witness :
    (1 ≤ 51 ∧ 51 ≤ sampleA.length ∧ 51 ≤ sampleB.length ∧
      sampleA.take 51 = sampleB.take 51) ∧
    (SignalV2 sampleA 50 = SignalV2 sampleB 50 ∧
     (∀ j, j + 49 < 51 → PositionV1 sampleA j = PositionV1 sampleB j) ∧
     (51 < sampleA.length → 51 < sampleB.length →
       sampleA.take 52 = sampleB.take 52 →
       strategyV2 sampleA 51 = strategyV2 sampleB 51) ∧
     (∀ j, 1 ≤ j → j + 49 < 51 → strategyV1 sampleA j = strategyV1 sampleB j)) := by
  have htake : sampleA.take 51 = sampleB.take 51 := by
    have h1 : sampleA.take 51 = List.replicate 50 (100 : ℚ) ++ [110] := by
      unfold sampleA
      rw [show (51 : ℕ) = 50 + 1 from rfl]
      exact take_replicate_append 50 100 110 [110]
    have h2 : sampleB.take 51 = List.replicate 50 (100 : ℚ) ++ [110] := by
      unfold sampleB
      rw [show (51 : ℕ) = 50 + 1 from rfl]
      exact take_replicate_append 50 100 110 [120]
    rw [h1, h2]
  have hlenA : sampleA.length = 52 := by
    unfold sampleA
    simp
  have hlenB : sampleB.length = 52 := by
    unfold sampleB
    simp
  refine ⟨⟨by omega, by omega, by omega, htake⟩, ?_⟩
  exact c2_no_lookahead_amended sampleA sampleB 51 (by omega) (by omega) (by omega) htake

end Backtest

namespace Backtest

/-- C8 counterexample: on a two-bar series every row is a warm-up row (the
50-bar SMA and the RSI are undefined everywhere), yet BacktesterV2 computes
a signal value (0), a defined strategy return at row 1, a cumulative value
at every row, and feeds the row-1 return into the metrics input — warm-up
rows are *not* excluded from its downstream structures. -/
theorem c8_warmup_included_counterexample :
    smaAt 50 [(100 : ℚ), 100] 1 = none ∧
    rsiAt [(100 : ℚ), 100] 1 = none ∧
    SignalV2 [(100 : ℚ), 100] 0 = 0 ∧
    strategyV2 [(100 : ℚ), 100] 1 = some 0 ∧
    cumStrategyV2 [(100 : ℚ), 100] 1 = 1 ∧
    stratValsV2 [(100 : ℚ), 100] = [0] := by
  have hsma50 : smaAt 50 [(100 : ℚ), 100] 1 = none := by
    unfold smaAt
    rw [if_neg (by norm_num)]
  have hsma10 : smaAt 10 [(100 : ℚ), 100] 0 = none := by
    unfold smaAt
    rw [if_neg (by norm_num)]
  have hrsi : rsiAt [(100 : ℚ), 100] 1 = none := by
    unfold rsiAt avgGainAt avgLossAt
    rw [if_neg (by norm_num)]
  have hsig0 : SignalV2 [(100 : ℚ), 100] 0 = 0 := by
    unfold SignalV2 signalCondV2
    rw [hsma10]
    simp
  have hmkt1 : marketAt [(100 : ℚ), 100] 1 = some 0 := by
    unfold marketAt pctChangeAt
    rw [if_pos (by norm_num)]
    norm_num [List.getD_cons_succ, List.getD_cons_zero]
  have hstrat1 : strategyV2 [(100 : ℚ), 100] 1 = some 0 := by
    unfold strategyV2
    rw [hmkt1]
    simp only [Option.map_some']
    rw [hsig0]
    norm_num
  refine ⟨hsma50, hrsi, hsig0, hstrat1, ?_, ?_⟩
  · show cumStrategyV2 [(100 : ℚ), 100] 0 * (1 + (strategyV2 [(100 : ℚ), 100] 1).getD 0) = 1
    show (1 + (strategyV2 [(100 : ℚ), 100] 0).getD 0) * (1 + (strategyV2 [(100 : ℚ), 100] 1).getD 0) = 1
    rw [strategyV2_at_zero, hstrat1]
    norm_num
  · unfold stratValsV2
    rw [show ([(100 : ℚ), 100].length) = 2 from rfl]
    rw [show List.range 2 = [0, 1] from rfl]
    simp [List.filterMap_cons, strategyV2_at_zero, hstrat1]

/-- C8 (amended): the warm-up discipline holds for BacktesterV1 — every row
that survives its dropna has both SMAs defined — but not for BacktesterV2,
which drops nothing after the indicators: its strategy return is defined at
every date `t ≥ 1` whatever the indicator warm-up state, and a warm-up row
merely carries Signal 0. -/
theorem c8_warmup_amended (c : List ℚ) (j : ℕ) (hj : j < (trimmedV1 c).length) :
    ((smaAt 10 c (j + 49)).isSome = true ∧ (smaAt 50 c (j + 49)).isSome = true) ∧
    (∀ i, 1 ≤ i → i < c.length → (strategyV2 c i).isSome = true) ∧
    (∀ i, (smaAt 50 c i).isSome = false → SignalV2 c i = 0) := by
  have hlen : j + 49 < c.length := by
    unfold trimmedV1 at hj
    rw [List.length_drop] at hj
    omega
  refine ⟨⟨?_, ?_⟩, ?_, ?_⟩
  · unfold smaAt
    rw [if_pos ⟨by omega, hlen⟩]
    rfl
  · unfold smaAt
    rw [if_pos ⟨by omega, hlen⟩]
    rfl
  · intro i h1 h2
    unfold strategyV2 marketAt pctChangeAt
    rw [if_pos ⟨h1, h2⟩]
    rfl
  · intro i hsma
    have hcond : signalCondV2 c i = false := by
      unfold signalCondV2
      cases h50 : smaAt 50 c i with
      | some v =>
        rw [h50] at hsma
        cases hsma
      | none => cases h10 : smaAt 10 c i <;> simp
    unfold SignalV2
    rw [hcond]
    rfl

/-- Witness for the amended C8 at `sampleE`, the shortest all-defined
series for BacktesterV1. -/
theorem c8_warmup_amended_witness :
    0 < (trimmedV1 sampleE).length ∧
    (((smaAt 10 sampleE (0 + 49)).isSome = true ∧ (smaAt 50 sampleE (0 + 49)).isSome = true) ∧
     (∀ i, 1 ≤ i → i < sampleE.length → (strategyV2 sampleE i).isSome = true) ∧
     (∀ i, (smaAt 50 sampleE i).isSome = false → SignalV2 sampleE i = 0)) := by
  have hj : 0 < (trimmedV1 sampleE).length := by
    unfold trimmedV1 sampleE
    rw [List.length_drop, List.length_replicate]
    omega
  exact ⟨hj, c8_warmup_amended sampleE 0 hj⟩

end Backtest

namespace NewsAgg

theorem getNews_nil (name ticker : String) (pInt : ℤ → Option DT)
    (pIso : String → Option DT) : getNews name ticker pInt pIso [] = [] := by
  unfold getNews
  rw [if_pos rfl]

theorem runBatch_error_mem (fetch : String → Except String (List Story))
    (pInt : ℤ → Option DT) (pIso : String → Option DT) :
    ∀ (wl : List (String × String)) (n t e : String), (n, t) ∈ wl →
      fetch t = Except.error e → (t, e) ∈ (runBatch fetch pInt pIso wl).2 := by
  intro wl
  induction wl with
  | nil =>
    intro n t e h
    exact absurd h (List.not_mem_nil _)
  | cons p rest ih =>
    intro n t e hmem herr
    obtain ⟨n', t'⟩ := p
    cases hf : fetch t' with
    | ok ss =>
      have hgoal : (runBatch fetch pInt pIso ((n', t') :: rest)).2 =
          (runBatch fetch pInt pIso rest).2 := by
        simp only [runBatch, hf]
      rw [hgoal]
      rcases List.mem_cons.mp hmem with heq | hmem'
      · injection heq with h1 h2
        subst h2
        rw [herr] at hf
        cases hf
      · exact ih n t e hmem' herr
    | error e' =>
      have hgoal : (runBatch fetch pInt pIso ((n', t') :: rest)).2 =
          (t', e') :: (runBatch fetch pInt pIso rest).2 := by
        simp only [runBatch, hf]
      rw [hgoal]
      rcases List.mem_cons.mp hmem with heq | hmem'
      · injection heq with h1 h2
        subst h2
        rw [herr] at hf
        injection hf with h3
        subst h3
        exact List.mem_cons_self _ _
      · exact List.mem_cons_of_mem _ (ih n t e hmem' herr)

theorem runBatch_ok_sub (fetch : String → Except String (List Story))
    (pInt : ℤ → Option DT) (pIso : String → Option DT) :
    ∀ (wl : List (String × String)) (n t : String) (ss : List Story), (n, t) ∈ wl →
      fetch t = Except.ok ss →
      ∀ item ∈ getNews n t pInt pIso ss, item ∈ (runBatch fetch pInt pIso wl).1 := by
  intro wl
  induction wl with
  | nil =>
    intro n t ss h
    exact absurd h (List.not_mem_nil _)
  | cons p rest ih =>
    intro n t ss hmem hok item hitem
    obtain ⟨n', t'⟩ := p
    cases hf : fetch t' with
    | ok ss' =>
      have hgoal : (runBatch fetch pInt pIso ((n', t') :: rest)).1 =
          getNews n' t' pInt pIso ss' ++ (runBatch fetch pInt pIso rest).1 := by
        simp only [runBatch, hf]
      rw [hgoal]
      rcases List.mem_cons.mp hmem with heq | hmem'
      · injection heq with h1 h2
        subst h1
        subst h2
        rw [hok] at hf
        injection hf with h3
        subst h3
        exact List.mem_append_left _ hitem
      · exact List.mem_append_right _ (ih n t ss hmem' hok item hitem)
    | error e' =>
      have hgoal : (runBatch fetch pInt pIso ((n', t') :: rest)).1 =
          (runBatch fetch pInt pIso rest).1 := by
        simp only [runBatch, hf]
      rw [hgoal]
      rcases List.mem_cons.mp hmem with heq | hmem'
      · injection heq with h1 h2
        subst h2
        rw [hok] at hf
        cases hf
      · exact ih n t ss hmem' hok item hitem

theorem runBatch_items_src (fetch : String → Except String (List Story))
    (pInt : ℤ → Option DT) (pIso : String → Option DT) :
    ∀ (wl : List (String × String)), ∀ item ∈ (runBatch fetch pInt pIso wl).1,
      ∃ n t ss, (n, t) ∈ wl ∧ fetch t = Except.ok ss ∧
        item ∈ getNews n t pInt pIso ss := by
  intro wl
  induction wl with
  | nil =>
    intro item h
    exact absurd h (List.not_mem_nil _)
  | cons p rest ih =>
    intro item hitem
    obtain ⟨n', t'⟩ := p
    cases hf : fetch t' with
    | ok ss' =>
      have hgoal : (runBatch fetch pInt pIso ((n', t') :: rest)).1 =
          getNews n' t' pInt pIso ss' ++ (runBatch fetch pInt pIso rest).1 := by
        simp only [runBatch, hf]
      rw [hgoal] at hitem
      rcases List.mem_append.mp hitem with hleft | hright
      · exact ⟨n', t', ss', List.mem_cons_self _ _, hf, hleft⟩
      · obtain ⟨n, t, ss, hwl, hok, hin⟩ := ih item hright
        exact ⟨n, t, ss, List.mem_cons_of_mem _ hwl, hok, hin⟩
    | error e' =>
      have hgoal : (runBatch fetch pInt pIso ((n', t') :: rest)).1 =
          (runBatch fetch pInt pIso rest).1 := by
        simp only [runBatch, hf]
      rw [hgoal] at hitem
      obtain ⟨n, t, ss, hwl, hok, hin⟩ := ih item hitem
      exact ⟨n, t, ss, List.mem_cons_of_mem _ hwl, hok, hin⟩

/-- C9 counterexample: with the TSLA fetch raising an upstream error, the
batch still returns the cleaned GOOGL story, but the aggregate result list
holds *no* record at all for the failing instrument — the error marker only
goes to the console log, not into the result set the claim talks about. -/
theorem c9_no_marker_counterexample :
    exFetch "TSLA" = Except.error "UpstreamDataError" ∧
    (∃ item ∈ (runBatch exFetch noParseInt noParseIso exWatchlist).1,
      item.ticker = "GOOGL") ∧
    ¬ (∃ item ∈ (runBatch exFetch noParseInt noParseIso exWatchlist).1,
      item.ticker = "TSLA") := by
  refine ⟨?_, by decide, by decide⟩
  unfold exFetch
  rw [if_pos rfl]

/-- C9 (amended): the batch never aborts — for every watchlist and every
failure pattern of the fetcher, each failing instrument leaves its error
only in the console log, every successfully fetched instrument contributes
all its cleaned stories to the aggregate result list, every aggregate entry
comes from some successfully fetched instrument (so a failing instrument
contributes nothing — there is no error marker in the result set), and an
empty news response yields an empty cleaned list. -/
theorem c9_batch_resilience_amended (fetch : String → Except String (List Story))
    (pInt : ℤ → Option DT) (pIso : String → Option DT) (wl : List (String × String)) :
    (∀ n t e, (n, t) ∈ wl → fetch t = Except.error e →
      (t, e) ∈ (runBatch fetch pInt pIso wl).2) ∧
    (∀ n t ss, (n, t) ∈ wl → fetch t = Except.ok ss →
      ∀ item ∈ getNews n t pInt pIso ss, item ∈ (runBatch fetch pInt pIso wl).1) ∧
    (∀ item ∈ (runBatch fetch pInt pIso wl).1,
      ∃ n t ss, (n, t) ∈ wl ∧ fetch t = Except.ok ss ∧
        item ∈ getNews n t pInt pIso ss) ∧
    (∀ n t, getNews n t pInt pIso [] = []) :=
  ⟨fun n t e => runBatch_error_mem fetch pInt pIso wl n t e,
   fun n t ss => runBatch_ok_sub fetch pInt pIso wl n t ss,
   runBatch_items_src fetch pInt pIso wl,
   fun n t => getNews_nil n t pInt pIso⟩

/-- Witness for the amended C9 on the concrete failing watchlist. -/
theorem c9_batch_resilience_amended_witness :
    (("Tesla", "TSLA") ∈ exWatchlist ∧
      exFetch "TSLA" = Except.error "UpstreamDataError") ∧
    ("TSLA", "UpstreamDataError") ∈ (runBatch exFetch noParseInt noParseIso exWatchlist).2 :=
  ⟨⟨by decide, by unfold exFetch; rw [if_pos rfl]⟩,
   (c9_batch_resilience_amended exFetch noParseInt noParseIso exWatchlist).1
     "Tesla" "TSLA" "UpstreamDataError" (by decide)
     (by unfold exFetch; rw [if_pos rfl])⟩

end NewsAgg


namespace NewsAgg

theorem lex_append_left (a : List Char) {s t : List Char}
    (h : List.Lex (· < ·) s t) : List.Lex (· < ·) (a ++ s) (a ++ t) := by
  induction a with
  | nil => exact h
  | cons c a ih => exact List.Lex.cons ih

theorem lex_append_both {p q : List Char} (h : List.Lex (· < ·) p q) :
    p.length = q.length → ∀ s t : List Char, List.Lex (· < ·) (p ++ s) (q ++ t) := by
  induction h with
  | nil =>
    intro hlen
    simp at hlen
  | rel hab =>
    intro hlen s t
    exact List.Lex.rel hab
  | cons h ih =>
    intro hlen s t
    exact List.Lex.cons (ih (by simpa using hlen) s t)

theorem dchD_lt_dchD {a b : ℕ} (ha : a < 10) (hb : b < 10) (hab : a < b) :
    dchD a < dchD b := by
  interval_cases a <;> interval_cases b <;> first | omega | decide

theorem dchD_lt_U {a : ℕ} (ha : a < 10) : dchD a < 'U' := by
  interval_cases a <;> decide

theorem dch_lt_U (n : ℕ) : dch n < 'U' :=
  dchD_lt_U (Nat.mod_lt n (by norm_num))

theorem pad2_lt {m n : ℕ} (hm : m < 100) (hn : n < 100) (h : m < n) :
    List.Lex (· < ·) (pad2 m) (pad2 n) := by
  unfold pad2 dch
  rcases Nat.lt_or_ge (m / 10) (n / 10) with h1 | h1
  · exact List.Lex.rel (dchD_lt_dchD (by omega) (by omega) (by omega))
  · have heq : m / 10 = n / 10 := by omega
    have h2 : m % 10 < n % 10 := by omega
    rw [heq]
    exact List.Lex.cons (List.Lex.rel (dchD_lt_dchD (by omega) (by omega) h2))

theorem pad4_lt {m n : ℕ} (hm : m < 10000) (hn : n < 10000) (h : m < n) :
    List.Lex (· < ·) (pad4 m) (pad4 n) := by
  unfold pad4
  rcases Nat.lt_or_ge (m / 100) (n / 100) with h1 | h1
  · exact lex_append_both (pad2_lt (by omega) (by omega) h1) rfl _ _
  · have heq : m / 100 = n / 100 := by omega
    have h2 : m % 100 < n % 100 := by omega
    rw [heq]
    exact lex_append_left _ (pad2_lt (by omega) (by omega) h2)

theorem seg_lt_of_head {x y : ℕ} (hx : x < 100) (hy : y < 100) (hxy : x < y)
    (sep : Char) (s t : List Char) :
    List.Lex (· < ·) (pad2 x ++ sep :: s) (pad2 y ++ sep :: t) :=
  lex_append_both (pad2_lt hx hy hxy) rfl _ _

theorem seg_lt_of_tail (x : ℕ) (sep : Char) {s t : List Char}
    (h : List.Lex (· < ·) s t) :
    List.Lex (· < ·) (pad2 x ++ sep :: s) (pad2 x ++ sep :: t) :=
  lex_append_left _ (List.Lex.cons h)

/-- Core of the format monotonicity, stated on plain field variables so
that each lexicographic case can be discharged by constructor analysis. -/
theorem fmt_chain_lt {y1 mo1 d1 h1 mi1 s1 y2 mo2 d2 h2 mi2 s2 : ℕ}
    (hy1 : y1 < 10000) (hmo1 : mo1 < 100) (hd1 : d1 < 100) (hh1 : h1 < 100)
    (hmi1 : mi1 < 100) (hs1 : s1 < 100)
    (hy2 : y2 < 10000) (hmo2 : mo2 < 100) (hd2 : d2 < 100) (hh2 : h2 < 100)
    (hmi2 : mi2 < 100) (hs2 : s2 < 100)
    (h : List.Lex (· < ·) [y1, mo1, d1, h1, mi1, s1] [y2, mo2, d2, h2, mi2, s2]) :
    List.Lex (· < ·)
      (pad4 y1 ++ '-' :: (pad2 mo1 ++ '-' :: (pad2 d1 ++ ' ' :: (pad2 h1 ++ ':' :: (pad2 mi1 ++ ':' :: pad2 s1)))))
      (pad4 y2 ++ '-' :: (pad2 mo2 ++ '-' :: (pad2 d2 ++ ' ' :: (pad2 h2 ++ ':' :: (pad2 mi2 ++ ':' :: pad2 s2))))) := by
  cases h with
  | rel hlt => exact lex_append_both (pad4_lt hy1 hy2 hlt) rfl _ _
  | cons h =>
    refine lex_append_left (pad4 y1) (List.Lex.cons ?_)
    cases h with
    | rel hlt => exact seg_lt_of_head hmo1 hmo2 hlt '-' _ _
    | cons h =>
      refine seg_lt_of_tail mo1 '-' ?_
      cases h with
      | rel hlt => exact seg_lt_of_head hd1 hd2 hlt ' ' _ _
      | cons h =>
        refine seg_lt_of_tail d1 ' ' ?_
        cases h with
        | rel hlt => exact seg_lt_of_head hh1 hh2 hlt ':' _ _
        | cons h =>
          refine seg_lt_of_tail h1 ':' ?_
          cases h with
          | rel hlt => exact seg_lt_of_head hmi1 hmi2 hlt ':' _ _
          | cons h =>
            refine seg_lt_of_tail mi1 ':' ?_
            cases h with
            | rel hlt => exact pad2_lt hs1 hs2 hlt
            | cons h => cases h

/-- Chronologically earlier valid timestamps format to lexicographically
smaller strings: the fixed-width zero-padded `%Y-%m-%d %H:%M:%S` rendering
is strictly monotone in the field tuple. -/
theorem fmtDT_lt_of_fields_lt {a b : DT} (ha : DTvalid a) (hb : DTvalid b)
    (h : dtFields a < dtFields b) : fmtDT a < fmtDT b := by
  obtain ⟨hay1, hay2, ham, had, hah, hami, has⟩ := ha
  obtain ⟨hby1, hby2, hbm, hbd, hbh, hbmi, hbs⟩ := hb
  rw [String.lt_iff_toList_lt]
  exact fmt_chain_lt hay2 ham had hah hami has hby2 hbm hbd hbh hbmi hbs h

/-- Every date-formatted time string compares lexicographically below the
string `Unknown Time` (its leading character is a digit, below `U`). -/
theorem fmtDT_lt_unknown {t : DT} (ht : DTvalid t) : fmtDT t < "Unknown Time" := by
  rw [String.lt_iff_toList_lt]
  show List.Lex (· < ·) (dch (t.y / 100 / 10) :: _) ('U' :: _)
  exact List.Lex.rel (dch_lt_U _)

theorem insertDesc_perm (x : NewsItem) (l : List NewsItem) :
    List.Perm (insertDesc x l) (x :: l) := by
  induction l with
  | nil => exact List.Perm.refl _
  | cons y ys ih =>
    unfold insertDesc
    by_cases h : y.time < x.time
    · rw [if_pos h]
    · rw [if_neg h]
      exact (ih.cons y).trans (List.Perm.swap x y ys)

theorem sortNews_perm (l : List NewsItem) : List.Perm (sortNews l) l := by
  induction l with
  | nil => exact List.Perm.refl _
  | cons x xs ih => exact (insertDesc_perm x (sortNews xs)).trans (ih.cons x)

theorem mem_insertDesc {x y : NewsItem} {l : List NewsItem} :
    y ∈ insertDesc x l ↔ y = x ∨ y ∈ l := by
  rw [(insertDesc_perm x l).mem_iff, List.mem_cons]

theorem pairwise_insertDesc {x : NewsItem} {l : List NewsItem}
    (h : l.Pairwise (fun a b => ¬ a.time < b.time)) :
    (insertDesc x l).Pairwise (fun a b => ¬ a.time < b.time) := by
  induction l with
  | nil => exact List.pairwise_singleton _ _
  | cons y ys ih =>
    unfold insertDesc
    rcases List.pairwise_cons.mp h with ⟨hy, hys⟩
    by_cases hc : y.time < x.time
    · rw [if_pos hc]
      refine List.Pairwise.cons ?_ h
      intro z hz
      rcases List.mem_cons.mp hz with rfl | hz'
      · exact lt_asymm hc
      · have hzy : z.time ≤ y.time := not_lt.mp (hy z hz')
        exact not_lt.mpr (le_of_lt (lt_of_le_of_lt hzy hc))
    · rw [if_neg hc]
      refine List.Pairwise.cons ?_ (ih hys)
      intro z hz
      rcases mem_insertDesc.mp hz with rfl | hz'
      · exact hc
      · exact hy z hz'

theorem sortNews_pairwise (l : List NewsItem) :
    (sortNews l).Pairwise (fun a b => ¬ a.time < b.time) := by
  induction l with
  | nil => exact List.Pairwise.nil
  | cons x xs ih => exact pairwise_insertDesc ih

/-- C10: the final aggregated list is a permutation of its input sorted into
descending lexicographic order of the `time` strings; every record's time is
either a formatted timestamp, the marker `Unknown Time`, or the raw value
(for an unparseable truthy raw time); formatted strings compare
chronologically (so parsed items are ordered newest-first) and every
formatted string sorts below `Unknown Time`, which therefore appears above
all dated records in the descending output. -/
theorem c10_sort_descending_time :
    (∀ l : List NewsItem, List.Perm (sortNews l) l) ∧
    (∀ l : List NewsItem, (sortNews l).Pairwise (fun a b => ¬ a.time < b.time)) ∧
    (∀ (pInt : ℤ → Option DT) (pIso : String → Option DT) (raw : Option RawVal),
      (∃ dt, timeStrOf pInt pIso raw = fmtDT dt) ∨
      timeStrOf pInt pIso raw = "Unknown Time" ∨
      (∃ v, raw = some v ∧ timeStrOf pInt pIso raw = strOfRaw v)) ∧
    (∀ t : DT, DTvalid t → fmtDT t < "Unknown Time") ∧
    (∀ a b : DT, DTvalid a → DTvalid b → dtFields a < dtFields b → fmtDT a < fmtDT b) := by
  refine ⟨sortNews_perm, sortNews_pairwise, ?_, fun t ht => fmtDT_lt_unknown ht,
    fun a b ha hb h => fmtDT_lt_of_fields_lt ha hb h⟩
  intro pInt pIso raw
  cases raw with
  | none => exact Or.inr (Or.inl rfl)
  | some v =>
    cases v with
    | int n =>
      cases hp : pInt n with
      | some dt =>
        exact Or.inl ⟨dt, by unfold timeStrOf; simp [hp]⟩
      | none =>
        by_cases hn : n = 0
        · refine Or.inr (Or.inl ?_)
          unfold timeStrOf fallbackTime truthy
          subst hn
          simp [hp]
        · refine Or.inr (Or.inr ⟨.int n, rfl, ?_⟩)
          unfold timeStrOf fallbackTime truthy
          simp [hp, hn]
    | str s =>
      cases hp : pIso s with
      | some dt =>
        exact Or.inl ⟨dt, by unfold timeStrOf; simp [hp]⟩
      | none =>
        by_cases hs : s = ""
        · refine Or.inr (Or.inl ?_)
          unfold timeStrOf fallbackTime truthy
          subst hs
          simp [hp]
        · refine Or.inr (Or.inr ⟨.str s, rfl, ?_⟩)
          unfold timeStrOf fallbackTime truthy
          simp [hp, hs]

/-- Witness for C10 at two concrete timestamps. -/
theorem c10_sort_descending_time_witness :
    (DTvalid ⟨2024, 3, 20, 10, 0, 0⟩ ∧ DTvalid ⟨2025, 1, 1, 0, 0, 0⟩ ∧
      dtFields ⟨2024, 3, 20, 10, 0, 0⟩ < dtFields ⟨2025, 1, 1, 0, 0, 0⟩) ∧
    fmtDT ⟨2024, 3, 20, 10, 0, 0⟩ < "Unknown Time" ∧
    fmtDT ⟨2024, 3, 20, 10, 0, 0⟩ < fmtDT ⟨2025, 1, 1, 0, 0, 0⟩ := by
  have h1 : DTvalid ⟨2024, 3, 20, 10, 0, 0⟩ := by
    unfold DTvalid
    norm_num
  have h2 : DTvalid ⟨2025, 1, 1, 0, 0, 0⟩ := by
    unfold DTvalid
    norm_num
  have h3 : dtFields ⟨2024, 3, 20, 10, 0, 0⟩ < dtFields ⟨2025, 1, 1, 0, 0, 0⟩ := by
    unfold dtFields
    exact List.Lex.rel (by norm_num)
  exact ⟨⟨h1, h2, h3⟩,
    c10_sort_descending_time.2.2.2.1 ⟨2024, 3, 20, 10, 0, 0⟩ h1,
    c10_sort_descending_time.2.2.2.2 ⟨2024, 3, 20, 10, 0, 0⟩ ⟨2025, 1, 1, 0, 0, 0⟩ h1 h2 h3⟩

end NewsAgg
